import Mathlib

/-!
# Twitter search client (`tools/sources/twitter.h`)

A shallow embedding of the class `machinelearning::tools::sources::twitter`:

* the optional search parameters (`twitter::searchparameter`), their setters and
  the stream operator that renders them as a query string;
* the status check `twitter::throwHTTPError`;
* the exchange `twitter::sendRequest` over a socket, and `twitter::search`;
* the JSON tree printer `twitter::printValueTree`.

Conventions.  A C++ `std::string` is a Lean `String`; texts hold no NUL
character, and the order of two texts by their characters is the order of
their UTF-8 bytes.  A function that may throw returns `Except Exception _`, the
error carrying the message text.  An output stream is the text written to it
so far.  The output of `printf` is the list of the lines written, one for each
call, without the terminating newline.
-/

namespace Twitter

/-! ## Collaborators that are declared outside `twitter.h` -/

/-- The declarations of the header `tools/language/language.h` that `twitter.h`
uses, taken as a parameter: the ISO 639-1 language codes `language::code`, among
them `language::EN`, and `language::toString`, which gives the text of a code. -/
structure Language where
  /-- The enumeration `language::code`. -/
  code : Type
  /-- The enumerator `language::EN`. -/
  EN : code
  /-- The function `language::toString`. -/
  toString : code → String

/-- The error codes of `boost::system` that the exchange distinguishes. -/
inductive error_code where
  /-- The error `boost::asio::error::eof`: the peer closed the connection. -/
  | eof
  /-- Any other failure of a socket operation. -/
  | failure
deriving DecidableEq, Repr

/-- The exceptions that leave the functions of the class.  The message of an
`exception::runtime` is the text in the source; the message catalogue behind
`_()` is not consulted. -/
inductive Exception where
  /-- An `exception::runtime` with its message. -/
  | runtime (what : String)
  /-- A `boost::system::system_error`, thrown by the socket operations that take
  no error code argument. -/
  | system_error (ec : error_code)
deriving DecidableEq, Repr

deriving instance DecidableEq for Except

/-- A C++ `float`, given by its IEEE-754 binary32 bit pattern (sign bit 31). -/
structure Float32 where
  bits : Nat
deriving DecidableEq, Repr

namespace Float32

/-- Absolute value, the overload of `std::abs` for `float`: the sign bit is
cleared. -/
def abs (x : Float32) : Float32 := ⟨x.bits % 2 ^ 31⟩

/-- Unary minus on a `float`: the sign bit is flipped. -/
def neg (x : Float32) : Float32 := ⟨(x.bits + 2 ^ 31) % 2 ^ 32⟩

/-- The `float` 5.0f. -/
def five : Float32 := ⟨0x40A00000⟩

/-- The `float` -5.0f. -/
def minusFive : Float32 := ⟨0xC0A00000⟩

end Float32

/-! ## `twitter::searchparameter` -/

/-- The enumeration `searchparameter::resulttype`, by its underlying value. -/
abbrev resulttype := Nat

/-- Enumerator `mixed = 0`. -/
def mixed : resulttype := 0
/-- Enumerator `recent = 1`. -/
def recent : resulttype := 1
/-- Enumerator `popular = 2`. -/
def popular : resulttype := 2

/-- The enumeration `searchparameter::radiuslength`, by its underlying value. -/
abbrev radiuslength := Nat

/-- Enumerator `kilometer = 0`. -/
def kilometer : radiuslength := 0
/-- Enumerator `miles = 1`. -/
def miles : radiuslength := 1

/-- The struct `searchparameter::geoposition`. -/
structure geoposition where
  latitude : Float32
  longitude : Float32
  radius : Float32
  length : radiuslength
deriving DecidableEq, Repr

/-- The default constructor `geoposition()`. -/
def geoposition.default : geoposition := ⟨⟨0⟩, ⟨0⟩, ⟨0⟩, kilometer⟩

/-- The fields of `std::tm` that `setUntilDate` reads. -/
structure tm where
  tm_year : Int
  tm_mon : Int
  tm_mday : Int
deriving DecidableEq, Repr

/-- The private data of `twitter::searchparameter`. -/
structure searchparameter (L : Language) where
  /-- Which data is used (binary coded). -/
  m_use : Nat
  /-- Language code. -/
  m_lang : L.code
  /-- Result type. -/
  m_resulttype : String
  /-- Date value for time-based searches. -/
  m_until : String
  /-- Geo position. -/
  m_geo : String
  /-- Number of results. -/
  m_resultcount : Nat

variable {L : Language}

/-- The constructor `searchparameter::searchparameter`. -/
def searchparameter.new (L : Language) : searchparameter L :=
  { m_use := 0, m_lang := L.EN, m_resulttype := "", m_until := "", m_geo := "",
    m_resultcount := 0 }

/-- The setter `searchparameter::setLanguage`. -/
def setLanguage (s : searchparameter L) (p_lang : L.code) : searchparameter L :=
  { s with m_lang := p_lang, m_use := s.m_use ||| 1 }

/-- The setter `searchparameter::setResultType`. -/
def setResultType (s : searchparameter L) (p_res : resulttype) :
    Except Exception (searchparameter L) :=
  match p_res with
  | 0 => .ok { s with m_resulttype := "mixed", m_use := s.m_use ||| 2 }
  | 2 => .ok { s with m_resulttype := "popular", m_use := s.m_use ||| 2 }
  | 1 => .ok { s with m_resulttype := "recent", m_use := s.m_use ||| 2 }
  | _ => .error (.runtime "option value is unkown")

/-- An integer written to a stream with field width `w` and fill character `c`
(`std::setw`, `std::setfill`, default right adjustment). -/
def padded (w : Nat) (c : Char) (i : Int) : String :=
  String.mk (List.replicate (w - (toString i).length) c) ++ toString i

/-- The setter `searchparameter::setUntilDate`. -/
def setUntilDate (s : searchparameter L) (p_time : tm) : searchparameter L :=
  let l_stream := toString (p_time.tm_year + 1900) ++ "-"
  let l_stream := l_stream ++ padded 2 '0' p_time.tm_mon
  let l_stream := l_stream ++ "-"
  let l_stream := l_stream ++ padded 2 '0' p_time.tm_mday
  { s with m_until := l_stream, m_use := s.m_use ||| 4 }

/-- The setter `searchparameter::setGeoPosition`; `showFloat` is the text that
`operator<<` of the standard library writes for a `float`. -/
def setGeoPosition (showFloat : Float32 → String) (s : searchparameter L)
    (p_geo : geoposition) : searchparameter L :=
  let l_stream := showFloat p_geo.latitude ++ ","
  let l_stream := l_stream ++ showFloat p_geo.longitude ++ ","
  let l_stream := l_stream ++ showFloat p_geo.radius.abs
  let l_stream :=
    match p_geo.length with
    | 0 => l_stream ++ "km"
    | 1 => l_stream ++ "mi"
    | _ => l_stream
  { s with m_geo := l_stream, m_use := s.m_use ||| 8 }

/-- The setter `searchparameter::setResultCount`. -/
def setResultCount (s : searchparameter L) (p_num : Nat) :
    Except Exception (searchparameter L) :=
  if p_num == 0 || p_num > 1500 then
    .error (.runtime "result number must be in the range [1,1500]")
  else
    .ok { s with m_resultcount := p_num, m_use := s.m_use ||| 16 }

/-- The stream operator `operator<<(std::ostream&, const searchparameter&)`. -/
def operatorShl (p_stream : String) (p_obj : searchparameter L) : String :=
  let p_stream :=
    if p_obj.m_use &&& 1 ≠ 0 then p_stream ++ "lang=" ++ L.toString p_obj.m_lang ++ "&"
    else p_stream
  let p_stream :=
    if p_obj.m_use &&& 2 ≠ 0 then p_stream ++ "result_type=" ++ p_obj.m_resulttype ++ "&"
    else p_stream
  let p_stream :=
    if p_obj.m_use &&& 4 ≠ 0 then p_stream ++ "until=" ++ p_obj.m_until ++ "&"
    else p_stream
  let p_stream :=
    if p_obj.m_use &&& 8 ≠ 0 then p_stream ++ "geocode=" ++ p_obj.m_geo ++ "&"
    else p_stream
  let p_stream :=
    if p_obj.m_use &&& 16 ≠ 0 then p_stream ++ "rpp=" ++ toString p_obj.m_resultcount ++ "&"
    else p_stream
  p_stream

/-- The query string of a parameter set: what `operator<<` writes to an empty
stream. -/
def render (p_obj : searchparameter L) : String := operatorShl "" p_obj

/-! ## `twitter::throwHTTPError` -/

/-- The status check `twitter::throwHTTPError`: a `switch` over the status code
with no `default` label. -/
def throwHTTPError (p_status : Nat) : Except Exception Unit :=
  match p_status with
  | 0 => .error (.runtime "error while reading socket data")
  | 203 => .error (.runtime "Non-Authoritative Information")
  | 204 => .error (.runtime "No Content")
  | 205 => .error (.runtime "Reset Content")
  | 206 => .error (.runtime "Partial Content")
  | 300 => .error (.runtime "Multiple Choices")
  | 301 => .error (.runtime "Moved Permanently")
  | 302 => .error (.runtime "Moved Temporarily")
  | 303 => .error (.runtime "See Other")
  | 304 => .error (.runtime "Not Modified")
  | 305 => .error (.runtime "Use Proxy")
  | 307 => .error (.runtime "Temporary Redirect")
  | 400 => .error (.runtime "Bad Request")
  | 401 => .error (.runtime "Unauthorized")
  | 402 => .error (.runtime "Payment Required")
  | 403 => .error (.runtime "Forbidden")
  | 404 => .error (.runtime "Not Found")
  | 405 => .error (.runtime "Method Not Allowed")
  | 406 => .error (.runtime "Not Acceptable")
  | 407 => .error (.runtime "Proxy Authentication Required")
  | 408 => .error (.runtime "Request Time-out")
  | 409 => .error (.runtime "Conflict")
  | 410 => .error (.runtime "Gone")
  | 411 => .error (.runtime "Length Required")
  | 412 => .error (.runtime "Precondition Failed")
  | 413 => .error (.runtime "Request Entity Too Large")
  | 414 => .error (.runtime "Request-URI Too Large")
  | 415 => .error (.runtime "Unsupported Media Type")
  | 416 => .error (.runtime "Requested range not satisfiable")
  | 417 => .error (.runtime "Expectation Failed")
  | 500 => .error (.runtime "Internal Server Error")
  | 501 => .error (.runtime "Not Implemented")
  | 502 => .error (.runtime "Bad Gateway")
  | 503 => .error (.runtime "Service Unavailable")
  | 504 => .error (.runtime "Gateway Time-out")
  | 505 => .error (.runtime "HTTP Version not supported")
  | _ => .ok ()

/-! ## The socket and the response stream of `twitter::sendRequest` -/

/-- A connected `bip::tcp::socket` as the exchange sees it: the bytes written to
the peer, and the data the peer still delivers.  Every `read_some` on the socket
hands over the next entry of `pending`; when `pending` is used up the read
reports `ending`. -/
structure socket where
  /-- Whether the socket is open. -/
  is_open : Bool
  /-- The bytes written to the peer so far. -/
  sent : String
  /-- The data still to arrive, one entry for each read. -/
  pending : List String
  /-- The error code reported once all data has arrived. -/
  ending : error_code
  /-- The number of reads issued on the socket so far. -/
  reads : Nat
deriving DecidableEq, Repr

/-- The input stream `l_response_stream` with its buffer `l_response`: the
characters not yet consumed and the state flags. -/
structure istream where
  /-- The unread characters of the stream buffer. -/
  rdbuf : List Char
  /-- The flag `std::ios::eofbit`. -/
  eofbit : Bool
  /-- The flags `std::ios::failbit` and `std::ios::badbit`. -/
  failbit : Bool
deriving DecidableEq, Repr

/-- The test `std::isspace` in the classic locale. -/
def isspace (c : Char) : Bool :=
  c == ' ' || c == '\t' || c == '\n' || c == '\x0b' || c == '\x0c' || c == '\r'

/-- The test `std::isdigit`. -/
def isdigit (c : Char) : Bool := '0' ≤ c && c ≤ '9'

/-- The test `good()` of a stream. -/
def istream.good (s : istream) : Bool := !s.eofbit && !s.failbit

/-- The value of a sequence of decimal digits. -/
def decimalValue (ds : List Char) : Nat :=
  ds.foldl (fun n d => 10 * n + (d.toNat - '0'.toNat)) 0

/-- The extraction `stream >> std::string`: leading white space is skipped and the
characters up to the next white space are taken.  Returns the stream and the
new value of the string (`old` when nothing is stored). -/
def extractString (s : istream) (old : String) : istream × String :=
  if !s.good then ({ s with failbit := true }, old)
  else
    let rest := s.rdbuf.dropWhile isspace
    if rest.isEmpty then ({ rdbuf := [], eofbit := true, failbit := true }, old)
    else
      let token := rest.takeWhile (fun c => !isspace c)
      let rest := rest.dropWhile (fun c => !isspace c)
      ({ rdbuf := rest, eofbit := rest.isEmpty, failbit := false }, String.mk token)

/-- The extraction `stream >> unsigned int`: leading white space is skipped, then an
optional sign and decimal digits are read.  No digit, or a value above
`UINT_MAX`, sets the fail flag; a leading minus negates modulo `2 ^ 32`.
Returns the stream and the new value of the number (`old` when nothing is
stored). -/
def extractUnsigned (s : istream) (old : Nat) : istream × Nat :=
  if !s.good then ({ s with failbit := true }, old)
  else
    let rest := s.rdbuf.dropWhile isspace
    if rest.isEmpty then ({ rdbuf := [], eofbit := true, failbit := true }, old)
    else
      let negative := rest.head? == some '-'
      let rest := if negative || rest.head? == some '+' then rest.tail else rest
      let digits := rest.takeWhile isdigit
      let rest := rest.dropWhile isdigit
      let value := decimalValue digits
      if digits.isEmpty then
        ({ rdbuf := rest, eofbit := rest.isEmpty, failbit := true }, 0)
      else if value ≥ 2 ^ 32 then
        ({ rdbuf := rest, eofbit := rest.isEmpty, failbit := true }, 2 ^ 32 - 1)
      else
        ({ rdbuf := rest, eofbit := rest.isEmpty, failbit := false },
          if negative then (2 ^ 32 - value) % 2 ^ 32 else value)

/-- The call `std::getline(stream, line)`: the characters up to the next newline are
stored, the newline is consumed.  Returns the stream and the new value of the
line (`old` when nothing is stored). -/
def getline (s : istream) (old : String) : istream × String :=
  if !s.good then ({ s with failbit := true }, old)
  else
    let line := s.rdbuf.takeWhile (fun c => c != '\n')
    match s.rdbuf.dropWhile (fun c => c != '\n') with
    | [] => ({ rdbuf := [], eofbit := true, failbit := line.isEmpty }, String.mk line)
    | _ :: rest => ({ rdbuf := rest, eofbit := s.eofbit, failbit := false }, String.mk line)

/-- One `read_some` on the socket: the next piece of data, or the final error
code. -/
def read_some (p_socket : socket) : socket × Except error_code String :=
  match p_socket.pending with
  | [] => ({ p_socket with reads := p_socket.reads + 1 }, .error p_socket.ending)
  | d :: ds => ({ p_socket with pending := ds, reads := p_socket.reads + 1 }, .ok d)

/-- The loop of `boost::asio::read_until(socket, buffer, delim)` over the data
still to arrive: nothing is read when the buffer already holds the delimiter,
otherwise data is read until it does; a failing read ends the loop with its
error code. -/
def read_until_loop (delim : List Char) :
    List String → socket → List Char → socket × List Char × Option error_code
  | [], p_socket, buffer =>
    if delim <:+: buffer then (p_socket, buffer, none)
    else ((read_some p_socket).1, buffer, some p_socket.ending)
  | d :: ds, p_socket, buffer =>
    if delim <:+: buffer then (p_socket, buffer, none)
    else read_until_loop delim ds (read_some p_socket).1 (buffer ++ d.data)

/-- The call `boost::asio::read_until(socket, buffer, delim)`; the overload used
throws `boost::system::system_error` when a read fails. -/
def read_until (p_socket : socket) (buffer : List Char) (delim : String) :
    socket × List Char × Option error_code :=
  read_until_loop delim.data p_socket.pending p_socket buffer

/-- The loop `while (boost::asio::read(socket, buffer, transfer_at_least(1), error));`
over the data still to arrive: every piece is appended to the buffer until a
read fails, and the error code of that read is kept. -/
def read_all_loop : List String → socket → List Char → socket × List Char × error_code
  | [], p_socket, buffer => ((read_some p_socket).1, buffer, p_socket.ending)
  | d :: ds, p_socket, buffer => read_all_loop ds (read_some p_socket).1 (buffer ++ d.data)

/-- The loop `while (std::getline(stream, l_header) && l_header != "\r");` that
consumes the header lines; `fuel` bounds the number of rounds. -/
def skipHeader : Nat → istream → istream
  | 0, s => s
  | fuel + 1, s =>
    let r := getline s ""
    if !r.1.failbit && r.2 != "\r" then skipHeader fuel r.1 else r.1

/-- The text of the request that `sendRequest` writes to the socket. -/
def requestText (m_httpagent p_query p_server : String) : String :=
  let l_request := "GET " ++ p_query ++ " HTTP/1.1\r\n"
  let l_request := l_request ++ "Host: " ++ p_server ++ "\r\n"
  let l_request := l_request ++ "Accept: */*\r\n"
  let l_request := l_request ++ "User-Agent: " ++ m_httpagent ++ "\r\n"
  let l_request := l_request ++ "Connection: close\r\n\r\n"
  l_request

/-- The first part of `sendRequest` after the request is written: the read of
the first line and the extraction of the HTTP version, the status code and
the status message from it.  Returns the socket, the stream, the version and
the status code, or the error code of a failing read. -/
def readStatusLine (p_socket : socket) :
    socket × Except error_code (istream × String × Nat) :=
  match read_until p_socket [] "\r\n" with
  | (p_socket, _, some ec) => (p_socket, .error ec)
  | (p_socket, l_response, none) =>
    let l_response_stream : istream := { rdbuf := l_response, eofbit := false, failbit := false }
    let r := extractString l_response_stream ""
    let l_http_version := r.2
    let r := extractUnsigned r.1 0
    let l_status := r.2
    let r := getline r.1 ""
    (p_socket, .ok (r.1, l_http_version, l_status))

/-- The last part of `sendRequest`, after the status check: the rest of the
header is read and skipped, then the content is collected until the peer
closes the connection. -/
def readContent (p_socket : socket) (l_response_stream : istream) :
    socket × Except Exception String :=
  match read_until p_socket l_response_stream.rdbuf "\r\n\r\n" with
  | (p_socket, _, some ec) => (p_socket, .error (.system_error ec))
  | (p_socket, l_response, none) =>
    let l_response_stream := { l_response_stream with rdbuf := l_response }
    let l_response_stream := skipHeader (l_response.length + 1) l_response_stream
    let l_content := l_response_stream.rdbuf
    match read_all_loop p_socket.pending p_socket [] with
    | (p_socket, l_response, l_error) =>
      if l_error != error_code.eof then
        (p_socket, .error (.runtime "data can not be received"))
      else
        (p_socket, .ok (String.mk (l_content ++ l_response)))

/-- The function `twitter::sendRequest`: sends the HTTP request over the socket,
receives the header and returns the data. -/
def sendRequest (m_httpagent : String) (p_socket : socket) (p_query p_server : String) :
    socket × Except Exception String :=
  let p_socket := { p_socket with sent := p_socket.sent ++ requestText m_httpagent p_query p_server }
  match readStatusLine p_socket with
  | (p_socket, .error ec) => (p_socket, .error (.system_error ec))
  | (p_socket, .ok (l_response_stream, l_http_version, l_status)) =>
    if l_response_stream.failbit || String.mk (l_http_version.data.take 5) != "HTTP/" then
      (p_socket, .error (.runtime "invalid response"))
    else
      match throwHTTPError l_status with
      | .error e => (p_socket, .error e)
      | .ok () => readContent p_socket l_response_stream

/-! ## `twitter::printValueTree` -/

/-- A C++ `double`, given by its IEEE-754 binary64 bit pattern. -/
structure Float64 where
  bits : Nat
deriving DecidableEq, Repr

/-- The tree `Json::Value` of the JSON library: a value tagged with its
`Json::ValueType`.  The members of an object are listed with their names; the
library keeps them in a map, so the names of one object are distinct. -/
inductive Value where
  | nullValue
  | intValue (asInt : Int)
  | uintValue (asUInt : Nat)
  | realValue (asDouble : Float64)
  | stringValue (asString : String)
  | booleanValue (asBool : Bool)
  | arrayValue (elements : List Value)
  | objectValue (members : List (String × Value))

/-- The call `std::sort(members.begin(), members.end())` on member names: the
names in ascending order of `std::string::operator<`, which compares two
strings character by character and then by length. -/
def sortNames (members : List String) : List String :=
  members.insertionSort (fun a b => a.data ≤ b.data)

/-- The separator of `printValueTree` between the path and a member name: empty
when the last character of the path is a dot. -/
def pathSuffix (path : String) : String :=
  if path.data.getLast? = some '.' then "" else "."

mutual

/-- The function `twitter::printValueTree`: the texts it prints for a value at a
path, one entry for each `printf` call, without the line feed that ends the
format string of the call.  A string value and a member name are printed as
they are, so an entry that holds a line feed covers more than one line of the
output; `printedLines` gives the lines.  `showDouble` is the text that `printf`
writes for a `double` under the conversion `%.16g`. -/
def printValueTree (showDouble : Float64 → String) : Value → String → List String
  | .nullValue, path => [path ++ "=null"]
  | .intValue asInt, path => [path ++ "=" ++ toString asInt]
  | .uintValue asUInt, path => [path ++ "=" ++ toString asUInt]
  | .realValue asDouble, path => [path ++ "=" ++ showDouble asDouble]
  | .stringValue asString, path => [path ++ "=\"" ++ asString ++ "\""]
  | .booleanValue asBool, path => [path ++ "=" ++ (if asBool then "true" else "false")]
  | .arrayValue elements, path =>
    (path ++ "=[]") :: printElements showDouble elements 0 path
  | .objectValue members, path =>
    let names := sortNames (members.map Prod.fst)
    let suffix := pathSuffix path
    (path ++ "=\x7b\x7d") ::
      names.flatMap fun name =>
        match (printMembers showDouble members).lookup name with
        | some printMember => printMember (path ++ suffix ++ name)
        | none => [path ++ suffix ++ name ++ "=null"]

/-- The loop of `printValueTree` over the elements of an array from `index` on:
`value[index]` is printed at the path followed by the index in brackets.  The
index of an element stays below `2 ^ 31`, where `%d` writes an `unsigned int`
with its decimal digits. -/
def printElements (showDouble : Float64 → String) :
    List Value → Nat → String → List String
  | [], _, _ => []
  | element :: rest, index, path =>
    let buffer := "[" ++ toString index ++ "]"
    printValueTree showDouble element (path ++ buffer)
      ++ printElements showDouble rest (index + 1) path

/-- The access `value[name]` of `printValueTree` for the members of an object:
every member name with the printing of its value, as a function of the path.
The object case looks a sorted name up in this list, which is the printing of
the member `value[name]`. -/
def printMembers (showDouble : Float64 → String) :
    List (String × Value) → List (String × (String → List String))
  | [] => []
  | (name, member) :: rest =>
    (name, printValueTree showDouble member) :: printMembers showDouble rest

end

/-! ## `twitter::search` -/

/-- The search server behind the endpoint `m_resolvesearch`, as far as a search
call meets it: whether it accepts a connection, and the response it then
sends. -/
structure endpoint where
  /-- Whether a connection to the server can be made. -/
  accepts : Bool
  /-- The response of the server, one entry for each read. -/
  response : List String
  /-- The error code that ends the response. -/
  ending : error_code
deriving DecidableEq, Repr

/-- The call `socket.connect(endpoint, error)`: a closed socket is opened and
connected to the server if the server accepts, and it stays open if the server
does not.  An open socket is taken to be connected, as it is after an exchange
that failed, and connecting it anew fails; the state open but not connected,
which a refused connection leaves behind, is not told apart from it.  Returns
the socket and the error code, if any. -/
def socket.connect (p_socket : socket) (peer : endpoint) : socket × Option error_code :=
  if p_socket.is_open then (p_socket, some .failure)
  else if peer.accepts then
    ({ p_socket with is_open := true, pending := peer.response, ending := peer.ending }, none)
  else ({ p_socket with is_open := true }, some .failure)

/-- The call `socket.close()`. -/
def socket.close (p_socket : socket) : socket := { p_socket with is_open := false }

/-- The members of the class `twitter` that a search call uses. -/
structure twitter (L : Language) where
  /-- Socket for the data of search calls. -/
  m_socketsearch : socket
  /-- Name for the HTTP agent. -/
  m_httpagent : String
  /-- Search parameter. -/
  m_searchparameter : searchparameter L
  /-- Not a member of the class: the number of `connect` calls made so far. -/
  connects : Nat

/-- The object after the constructor `twitter::twitter` has returned: the socket is
closed, the agent name and the search parameters have their initial values. -/
def twitter.new (L : Language) : twitter L :=
  { m_socketsearch := { is_open := false, sent := "", pending := [], ending := .failure,
                        reads := 0 },
    m_httpagent := "Machine Learning Framework",
    m_searchparameter := searchparameter.new L,
    connects := 0 }

/-- The query of `twitter::search`: the text that the statement
`l_query << "/search.json?q=" << function::urlencode(p_search) << "&" << p_params`
writes.  The function `function::urlencode` of `tools/function.hpp` is a
parameter. -/
def searchQuery (urlencode : String → String) (p_search : String)
    (p_params : searchparameter L) : String :=
  operatorShl ("/search.json?q=" ++ urlencode p_search ++ "&") p_params

/-- The function `twitter::search(p_search, p_params)`.  Returns the object after
the call and the texts printed, one for each `printf` call, or the exception
thrown.  The parameters are
`function::urlencode`, the parser `Json::Reader::parse`, the text `printf`
writes for a `double`, and the server behind `m_resolvesearch`. -/
def search (urlencode : String → String) (parse : String → Option Value)
    (showDouble : Float64 → String) (peer : endpoint) (self : twitter L)
    (p_search : String) (p_params : searchparameter L) :
    twitter L × Except Exception (List String) :=
  if p_search = "" then
    (self, .error (.runtime "search query need not be empty"))
  else
    let self := { self with m_searchparameter := p_params }
    let l_query := searchQuery urlencode p_search p_params
    match self.m_socketsearch.connect peer with
    | (m_socketsearch, some _) =>
      ({ self with m_socketsearch := m_socketsearch, connects := self.connects + 1 },
        .error (.runtime "can not connect to twitter search server"))
    | (m_socketsearch, none) =>
      let self := { self with m_socketsearch := m_socketsearch, connects := self.connects + 1 }
      match sendRequest self.m_httpagent self.m_socketsearch l_query "search.twitter.com" with
      | (m_socketsearch, .error e) => ({ self with m_socketsearch := m_socketsearch }, .error e)
      | (m_socketsearch, .ok l_json) =>
        let self := { self with m_socketsearch := m_socketsearch.close }
        if l_json = "" then
          (self, .error (.runtime "no JSON data received"))
        else
          match parse l_json with
          | none => (self, .error (.runtime "JSON data can not be parsed"))
          | some l_twitterroot => (self, .ok (printValueTree showDouble l_twitterroot "."))

/-- The function `twitter::search(p_search)`: a search with the parameters of the
last search. -/
def searchLast (urlencode : String → String) (parse : String → Option Value)
    (showDouble : Float64 → String) (peer : endpoint) (self : twitter L)
    (p_search : String) : twitter L × Except Exception (List String) :=
  search urlencode parse showDouble peer self p_search self.m_searchparameter

/-! ## Definitions used to state the properties -/

/-- A language collaborator with two codes, used to evaluate examples. -/
def Language.sample : Language :=
  { code := Bool, EN := false, toString := fun c => if c then "de" else "en" }

/-- A socket on which the whole response arrives in the pieces given and the
peer then closes the connection. -/
def socket.serving (pieces : List String) : socket :=
  { is_open := true, sent := "", pending := pieces, ending := .eof, reads := 0 }

/-- The optional fields of a parameter set in the order the spec fixes (language,
result type, until-date, geocode, result-count): for each field whether its
presence flag is set, its key and its value. -/
def queryFields (p : searchparameter L) : List (Bool × String × String) :=
  [ (decide (p.m_use &&& 1 ≠ 0), "lang", L.toString p.m_lang),
    (decide (p.m_use &&& 2 ≠ 0), "result_type", p.m_resulttype),
    (decide (p.m_use &&& 4 ≠ 0), "until", p.m_until),
    (decide (p.m_use &&& 8 ≠ 0), "geocode", p.m_geo),
    (decide (p.m_use &&& 16 ≠ 0), "rpp", toString p.m_resultcount) ]

/-- The rendering in the words of the spec: every present field is emitted as
`key=value` followed by the field separator, absent fields contribute nothing. -/
def renderSpec (p : searchparameter L) : String :=
  String.join (((queryFields p).filter fun f => f.1).map fun f => f.2.1 ++ "=" ++ f.2.2 ++ "&")

/-- The status codes the spec lists as mapped to an HTTP status error: 203 to 206,
300 to 307, 400 to 417 and 500 to 505. -/
def listedCode (c : Nat) : Bool :=
  (203 ≤ c && c ≤ 206) || (300 ≤ c && c ≤ 307) || (400 ≤ c && c ≤ 417)
    || (500 ≤ c && c ≤ 505)

/-- The texts that are empty or end with the field separator. -/
def EndsWithAmp (x : String) : Prop := x = "" ∨ ∃ pre, x = pre ++ "&"

/-- A call of one of the five setters of a parameter set, with its argument. -/
inductive SetterCall (L : Language) where
  | language (p_lang : L.code)
  | resultType (p_res : resulttype)
  | untilDate (p_time : tm)
  | geoPosition (p_geo : geoposition)
  | resultCount (p_num : Nat)

/-- The field a setter call writes, by the position of its presence flag in
`m_use`. -/
def SetterCall.field : SetterCall L → Nat
  | .language _ => 0
  | .resultType _ => 1
  | .untilDate _ => 2
  | .geoPosition _ => 3
  | .resultCount _ => 4

/-- A setter call carried out on a parameter set. -/
def SetterCall.apply (showFloat : Float32 → String) :
    SetterCall L → searchparameter L → Except Exception (searchparameter L)
  | .language p_lang, s => .ok (setLanguage s p_lang)
  | .resultType p_res, s => setResultType s p_res
  | .untilDate p_time, s => .ok (setUntilDate s p_time)
  | .geoPosition p_geo, s => .ok (setGeoPosition showFloat s p_geo)
  | .resultCount p_num, s => setResultCount s p_num

/-- A sequence of setter calls carried out one after the other; the first call
that throws ends the sequence with its exception. -/
def applyCalls (showFloat : Float32 → String) :
    List (SetterCall L) → searchparameter L → Except Exception (searchparameter L)
  | [], s => .ok s
  | c :: cs, s =>
    match c.apply showFloat s with
    | .ok s' => applyCalls showFloat cs s'
    | .error e => .error e

/-- What a setter call writes when it succeeds: its own value and its presence
flag. -/
def SetterCall.effect (showFloat : Float32 → String) :
    SetterCall L → searchparameter L → searchparameter L
  | .language p_lang, s => setLanguage s p_lang
  | .resultType p_res, s =>
    { s with
      m_resulttype := if p_res = 0 then "mixed" else if p_res = 2 then "popular" else "recent",
      m_use := s.m_use ||| 2 }
  | .untilDate p_time, s => setUntilDate s p_time
  | .geoPosition p_geo, s => setGeoPosition showFloat s p_geo
  | .resultCount p_num, s => { s with m_resultcount := p_num, m_use := s.m_use ||| 16 }

/-- The parameter set after a setter call: a call that throws leaves the
parameter set as it was. -/
def SetterCall.run (showFloat : Float32 → String) (c : SetterCall L)
    (s : searchparameter L) : searchparameter L :=
  match c.apply showFloat s with
  | .ok s' => s'
  | .error _ => s

/-- The parameter set after a sequence of setter calls, failing calls included. -/
def runCalls (showFloat : Float32 → String) (calls : List (SetterCall L))
    (s : searchparameter L) : searchparameter L :=
  calls.foldl (fun s c => c.run showFloat s) s

/-- The invariant of the data model on the result count and the result type. -/
def Invariant (s : searchparameter L) : Prop :=
  (s.m_use &&& 16 ≠ 0 → 1 ≤ s.m_resultcount ∧ s.m_resultcount ≤ 1500) ∧
  (s.m_use &&& 2 ≠ 0 →
    s.m_resulttype = "mixed" ∨ s.m_resulttype = "recent" ∨ s.m_resulttype = "popular")

/-- A status line in its parts: the HTTP version, the white space after it, the
digits of the status code, and the rest of the line up to its newline. -/
structure StatusLine where
  version : List Char
  blank : List Char
  digits : List Char
  message : List Char
deriving DecidableEq, Repr

/-- The characters of a status line, without the newline that ends it. -/
def StatusLine.text (l : StatusLine) : List Char :=
  l.version ++ l.blank ++ l.digits ++ l.message

/-- The status code of a status line. -/
def StatusLine.code (l : StatusLine) : Nat := decimalValue l.digits

/-- A status line is well formed when the version is a non-empty token, at least
one white space character follows, the status code is a non-empty sequence of
digits with a value an `unsigned int` holds, and the rest of the line does not
go on with a digit; the line holds no newline. -/
def StatusLine.WellFormed (l : StatusLine) : Prop :=
  l.version ≠ [] ∧ (∀ c ∈ l.version, isspace c = false) ∧
  l.blank ≠ [] ∧ (∀ c ∈ l.blank, isspace c = true ∧ c ≠ '\n') ∧
  l.digits ≠ [] ∧ (∀ c ∈ l.digits, isdigit c = true) ∧ decimalValue l.digits < 2 ^ 32 ∧
  (∀ c ∈ l.message.head?, isdigit c = false) ∧ '\n' ∉ l.message

instance (l : StatusLine) : Decidable l.WellFormed := by
  unfold StatusLine.WellFormed
  infer_instance

/-- Two JSON values that differ only in the order in which the members of their
objects, at any depth, are stored: the members of an object are permuted
(`members`), or this is done inside an element of an array (`element`) or inside
a member of an object (`member`), any number of times (`refl`, `trans`). -/
inductive Reordered : Value → Value → Prop
  | refl (v : Value) : Reordered v v
  | members (ms ms' : List (String × Value)) :
      ms.Perm ms' → Reordered (.objectValue ms) (.objectValue ms')
  | element (pre post : List Value) (v w : Value) :
      Reordered v w → Reordered (.arrayValue (pre ++ v :: post)) (.arrayValue (pre ++ w :: post))
  | member (pre post : List (String × Value)) (name : String) (v w : Value) :
      Reordered v w →
        Reordered (.objectValue (pre ++ (name, v) :: post))
          (.objectValue (pre ++ (name, w) :: post))
  | trans (u v w : Value) : Reordered u v → Reordered v w → Reordered u w

mutual

/-- The member names of every object in the value, at any depth, are distinct, as
they are in a tree of the JSON library. -/
def Value.DistinctNames : Value → Prop
  | .arrayValue elements => DistinctNames.elements elements
  | .objectValue members => (members.map Prod.fst).Nodup ∧ DistinctNames.members members
  | _ => True

/-- The elements of an array have distinct member names at any depth. -/
def DistinctNames.elements : List Value → Prop
  | [] => True
  | element :: rest => element.DistinctNames ∧ DistinctNames.elements rest

/-- The members of an object have distinct member names at any depth. -/
def DistinctNames.members : List (String × Value) → Prop
  | [] => True
  | (_, member) :: rest => member.DistinctNames ∧ DistinctNames.members rest

end

/-- The header of a response: every header line followed by its line end. -/
def headerBlock (lines : List (List Char)) : List Char :=
  lines.flatMap fun line => line ++ ['\r', '\n']

mutual

/-- The number of nodes of a JSON value: every scalar, array and object counts
once. -/
def Value.nodes : Value → Nat
  | .arrayValue elements => 1 + Value.nodesOfElements elements
  | .objectValue members => 1 + Value.nodesOfMembers members
  | _ => 1

/-- The number of nodes in the elements of an array. -/
def Value.nodesOfElements : List Value → Nat
  | [] => 0
  | element :: rest => element.nodes + Value.nodesOfElements rest

/-- The number of nodes in the members of an object. -/
def Value.nodesOfMembers : List (String × Value) → Nat
  | [] => 0
  | (_, member) :: rest => member.nodes + Value.nodesOfMembers rest

end

/-- The text on the standard output after the `printf` calls with the texts
given: the text of every call is followed by the line feed that ends its format
string. -/
def stdoutText : List String → List Char
  | [] => []
  | entry :: rest => entry.data ++ '\n' :: stdoutText rest

/-- The lines of a text: the runs of characters that the line feeds of the text
end, and the run after the last line feed if it is not empty. -/
def linesOf : List Char → List (List Char)
  | [] => []
  | c :: rest =>
    if c = '\n' then [] :: linesOf rest
    else
      match linesOf rest with
      | [] => [[c]]
      | line :: others => (c :: line) :: others

/-- The lines on the standard output after `printValueTree` has printed a value
at a path. -/
def printedLines (showDouble : Float64 → String) (v : Value) (path : String) :
    List (List Char) :=
  linesOf (stdoutText (printValueTree showDouble v path))

/-- The lines are in non-decreasing order, character by character. -/
def NonDecreasing (lines : List (List Char)) : Prop :=
  lines.Pairwise fun a b => a ≤ b

instance (lines : List (List Char)) : Decidable (NonDecreasing lines) := by
  unfold NonDecreasing
  infer_instance

mutual

/-- No string value and no member name of the value holds a line feed. -/
def Value.LineFeedFree : Value → Prop
  | .stringValue asString => '\n' ∉ asString.data
  | .arrayValue elements => LineFeedFree.elements elements
  | .objectValue members => LineFeedFree.members members
  | _ => True

/-- No element of an array holds a line feed. -/
def LineFeedFree.elements : List Value → Prop
  | [] => True
  | element :: rest => element.LineFeedFree ∧ LineFeedFree.elements rest

/-- No member of an object holds a line feed, in its name or in its value. -/
def LineFeedFree.members : List (String × Value) → Prop
  | [] => True
  | (name, member) :: rest =>
    '\n' ∉ name.data ∧ member.LineFeedFree ∧ LineFeedFree.members rest

end

mutual

/-- The condition under which the texts printed for a value at a path are in
order.  An array has at most ten elements.  An object with members stands at a
path that ends in a dot, no text of a member is below the marker text of the
object, and where the name of a member is the beginning of another name of the
object, no text of the member with the longer name is below a text of the member
with the shorter name.  The elements and members meet the condition at their
paths. -/
def Value.Ordered (showDouble : Float64 → String) : Value → String → Prop
  | .arrayValue elements, path =>
    elements.length ≤ 10 ∧ Ordered.elements showDouble elements 0 path
  | .objectValue members, path =>
    (members ≠ [] → pathSuffix path = "") ∧
    Ordered.members showDouble members (path ++ pathSuffix path) ∧
    (∀ m ∈ members,
      ∀ entry ∈ printValueTree showDouble m.2 (path ++ pathSuffix path ++ m.1),
        (path ++ "=\x7b\x7d").data ≤ entry.data) ∧
    (∀ a ∈ members, ∀ b ∈ members, a.1.data <+: b.1.data → a.1 ≠ b.1 →
      ∀ x ∈ printValueTree showDouble a.2 (path ++ pathSuffix path ++ a.1),
      ∀ y ∈ printValueTree showDouble b.2 (path ++ pathSuffix path ++ b.1),
        x.data ≤ y.data)
  | _, _ => True

/-- The elements of an array from `index` on meet the condition at their paths. -/
def Ordered.elements (showDouble : Float64 → String) : List Value → Nat → String → Prop
  | [], _, _ => True
  | element :: rest, index, path =>
    element.Ordered showDouble (path ++ ("[" ++ toString index ++ "]")) ∧
    Ordered.elements showDouble rest (index + 1) path

/-- The members of an object meet the condition at their paths, the path of a
member being the path given followed by its name. -/
def Ordered.members (showDouble : Float64 → String) : List (String × Value) → String → Prop
  | [], _ => True
  | (name, member) :: rest, path =>
    member.Ordered showDouble (path ++ name) ∧ Ordered.members showDouble rest path

end

end Twitter

namespace Twitter

variable {L : Language}

/-! ## Presence flags -/

theorem flag_iff_testBit (u k : Nat) : u &&& 2 ^ k ≠ 0 ↔ u.testBit k = true := by
  rw [Nat.and_two_pow]
  cases h : u.testBit k <;> simp [Nat.pos_iff_ne_zero]

theorem flag_or (u j k : Nat) :
    (u ||| 2 ^ j) &&& 2 ^ k ≠ 0 ↔ (u &&& 2 ^ k ≠ 0 ∨ j = k) := by
  rw [flag_iff_testBit, flag_iff_testBit, Nat.testBit_or, Nat.testBit_two_pow]
  simp

theorem render_eq (p : searchparameter L) :
    render p =
      (if p.m_use &&& 1 ≠ 0 then "lang=" ++ L.toString p.m_lang ++ "&" else "")
      ++ ((if p.m_use &&& 2 ≠ 0 then "result_type=" ++ p.m_resulttype ++ "&" else "")
      ++ ((if p.m_use &&& 4 ≠ 0 then "until=" ++ p.m_until ++ "&" else "")
      ++ ((if p.m_use &&& 8 ≠ 0 then "geocode=" ++ p.m_geo ++ "&" else "")
      ++ (if p.m_use &&& 16 ≠ 0 then "rpp=" ++ toString p.m_resultcount ++ "&" else "")))) := by
  unfold render operatorShl
  by_cases h1 : p.m_use &&& 1 = 0 <;> by_cases h2 : p.m_use &&& 2 = 0 <;>
    by_cases h4 : p.m_use &&& 4 = 0 <;> by_cases h8 : p.m_use &&& 8 = 0 <;>
    by_cases h16 : p.m_use &&& 16 = 0 <;>
    simp only [h1, h2, h4, h8, h16, ne_eq, not_true_eq_false, not_false_eq_true, if_true,
      if_false, String.append_assoc, String.empty_append, String.append_empty]

theorem renderSpec_eq (p : searchparameter L) : render p = renderSpec p := by
  rw [render_eq]
  unfold renderSpec queryFields
  have e1 : ∀ x : String, "lang" ++ ("=" ++ x) = "lang=" ++ x :=
    fun x => (String.append_assoc _ _ _).symm
  have e2 : ∀ x : String, "result_type" ++ ("=" ++ x) = "result_type=" ++ x :=
    fun x => (String.append_assoc _ _ _).symm
  have e4 : ∀ x : String, "until" ++ ("=" ++ x) = "until=" ++ x :=
    fun x => (String.append_assoc _ _ _).symm
  have e8 : ∀ x : String, "geocode" ++ ("=" ++ x) = "geocode=" ++ x :=
    fun x => (String.append_assoc _ _ _).symm
  have e16 : ∀ x : String, "rpp" ++ ("=" ++ x) = "rpp=" ++ x :=
    fun x => (String.append_assoc _ _ _).symm
  by_cases h1 : p.m_use &&& 1 = 0 <;> by_cases h2 : p.m_use &&& 2 = 0 <;>
    by_cases h4 : p.m_use &&& 4 = 0 <;> by_cases h8 : p.m_use &&& 8 = 0 <;>
    by_cases h16 : p.m_use &&& 16 = 0 <;>
    simp only [h1, h2, h4, h8, h16, ne_eq, not_true_eq_false, not_false_eq_true, if_true,
      if_false, decide_True, decide_False, List.filter, List.map, String.join, List.foldl,
      String.append_assoc, String.empty_append, String.append_empty, e1, e2, e4, e8, e16]

theorem EndsWithAmp.append {a b : String} (ha : EndsWithAmp a) (hb : EndsWithAmp b) :
    EndsWithAmp (a ++ b) := by
  rcases hb with hb | ⟨pre, hb⟩
  · subst hb
    rwa [String.append_empty]
  · subst hb
    exact Or.inr ⟨a ++ pre, (String.append_assoc _ _ _).symm⟩

theorem EndsWithAmp.field (c : Prop) [Decidable c] (key value : String) :
    EndsWithAmp (if c then key ++ value ++ "&" else "") := by
  by_cases hc : c
  · rw [if_pos hc]
    exact Or.inr ⟨key ++ value, rfl⟩
  · rw [if_neg hc]
    exact Or.inl rfl

theorem render_endsWithAmp (p : searchparameter L) : EndsWithAmp (render p) := by
  rw [render_eq]
  exact (EndsWithAmp.field _ _ _).append ((EndsWithAmp.field _ _ _).append
    ((EndsWithAmp.field _ _ _).append ((EndsWithAmp.field _ _ _).append
      (EndsWithAmp.field _ _ _))))

theorem append_field (a b c d x : String) :
    a ++ (b ++ (c ++ (d ++ x))) = (a ++ (b ++ (c ++ d))) ++ x := by
  simp only [String.append_assoc]

theorem render_single (p : searchparameter L) (k : Nat) (h : p.m_use = 0 ||| 2 ^ k) :
    render p =
      (if k = 0 then "lang=" ++ L.toString p.m_lang ++ "&" else "")
      ++ ((if k = 1 then "result_type=" ++ p.m_resulttype ++ "&" else "")
      ++ ((if k = 2 then "until=" ++ p.m_until ++ "&" else "")
      ++ ((if k = 3 then "geocode=" ++ p.m_geo ++ "&" else "")
      ++ (if k = 4 then "rpp=" ++ toString p.m_resultcount ++ "&" else "")))) := by
  have hf : ∀ j, p.m_use &&& 2 ^ j ≠ 0 ↔ k = j := by
    intro j
    rw [h, flag_or]
    simp
  have h0 := hf 0
  have h1 := hf 1
  have h2 := hf 2
  have h3 := hf 3
  have h4 := hf 4
  simp only [pow_zero, pow_one, Nat.reducePow] at h0 h1 h2 h3 h4
  rw [render_eq]
  simp only [h0, h1, h2, h3, h4]

/-! ## The result count (C1, C2) -/

theorem setResultCount_ok (s : searchparameter L) (n : Nat) (h1 : 1 ≤ n) (h2 : n ≤ 1500) :
    setResultCount s n = .ok { s with m_resultcount := n, m_use := s.m_use ||| 16 } := by
  unfold setResultCount
  have h : (n == 0 || decide (n > 1500)) = false := by
    simp only [Bool.or_eq_false_iff, beq_eq_false_iff_ne, decide_eq_false_iff_not]
    omega
  rw [h]
  rfl

theorem setResultCount_error (s : searchparameter L) (n : Nat) (h : n = 0 ∨ n > 1500) :
    setResultCount s n
      = .error (.runtime "result number must be in the range [1,1500]") := by
  unfold setResultCount
  have h : (n == 0 || decide (n > 1500)) = true := by
    simp only [Bool.or_eq_true, beq_iff_eq, decide_eq_true_eq]
    exact h
  rw [h]
  rfl

/-- C1: for every `n` with `1 ≤ n ≤ 1500`, `setResultCount n` succeeds on any
parameter set, and the query string rendered afterwards contains, as its last
field, `rpp=` followed by the decimal digits of `n` and the separator `&`. -/
theorem setResultCount_renders_rpp (s : searchparameter L) (n : Nat)
    (h1 : 1 ≤ n) (h2 : n ≤ 1500) :
    ∃ s', setResultCount s n = .ok s' ∧
      ∃ pre, render s' = pre ++ ("rpp=" ++ toString n ++ "&") := by
  refine ⟨_, setResultCount_ok s n h1 h2, ?_⟩
  rw [render_eq]
  have h16 : (s.m_use ||| 16) &&& 16 ≠ 0 := (flag_or s.m_use 4 4).2 (Or.inr rfl)
  rw [if_pos h16]
  exact ⟨_, append_field _ _ _ _ _⟩

theorem setResultCount_renders_rpp_witness :
    ∃ s', setResultCount (searchparameter.new Language.sample) 1500 = .ok s' ∧
      ∃ pre, render s' = pre ++ ("rpp=" ++ toString 1500 ++ "&") :=
  setResultCount_renders_rpp (searchparameter.new Language.sample) 1500 (by decide) (by decide)

/-- C2: `setResultCount n` fails with the validation error if and only if `n = 0`
or `n > 1500`, and succeeds if and only if `1 ≤ n ≤ 1500`; it fails for 0 and
for 1501 and succeeds for 1 and for 1500. -/
theorem setResultCount_fails_iff (s : searchparameter L) (n : Nat) :
    (setResultCount s n = .error (.runtime "result number must be in the range [1,1500]")
        ↔ (n = 0 ∨ n > 1500)) ∧
    ((∃ s', setResultCount s n = .ok s') ↔ (1 ≤ n ∧ n ≤ 1500)) ∧
    (∃ e, setResultCount s 0 = .error e) ∧
    (∃ e, setResultCount s 1501 = .error e) ∧
    (∃ s', setResultCount s 1 = .ok s') ∧
    (∃ s', setResultCount s 1500 = .ok s') := by
  refine ⟨⟨fun h => ?_, setResultCount_error s n⟩, ⟨fun h => ?_, fun h => ?_⟩,
    ⟨_, setResultCount_error s 0 (Or.inl rfl)⟩,
    ⟨_, setResultCount_error s 1501 (Or.inr (by decide))⟩,
    ⟨_, setResultCount_ok s 1 (by decide) (by decide)⟩,
    ⟨_, setResultCount_ok s 1500 (by decide) (by decide)⟩⟩
  · by_contra hn
    rw [setResultCount_ok s n (by omega) (by omega)] at h
    cases h
  · obtain ⟨s', hs'⟩ := h
    by_contra hn
    rw [setResultCount_error s n (by omega)] at hs'
    cases hs'
  · exact ⟨_, setResultCount_ok s n h.1 h.2⟩

/-! ## The rendering (C4) -/

/-- C4: the rendering of a parameter set is the concatenation, in the fixed order
lang, result_type, until, geocode, rpp, of `key=value&` for exactly the fields
whose presence flag is set; a freshly constructed parameter set renders as the
empty string, and every non-empty rendering ends with the separator `&`. -/
theorem render_fixed_order (p : searchparameter L) :
    render p = renderSpec p ∧
    render (searchparameter.new L) = "" ∧
    (render p ≠ "" → ∃ pre, render p = pre ++ "&") := by
  refine ⟨renderSpec_eq p, ?_, fun h => ?_⟩
  · simp [render_eq, searchparameter.new]
  · rcases render_endsWithAmp p with h0 | h1
    · exact absurd h0 h
    · exact h1

theorem render_fixed_order_witness :
    ∃ pre, render (setLanguage (searchparameter.new Language.sample) true) = pre ++ "&" :=
  (render_fixed_order (setLanguage (searchparameter.new Language.sample) true)).2.2 (by decide)

/-! ## Independence of the order of the setter calls (C3) -/

theorem SetterCall.apply_eq_effect (showFloat : Float32 → String) (c : SetterCall L)
    {s s' : searchparameter L} (h : c.apply showFloat s = .ok s') :
    s' = c.effect showFloat s ∧ ∀ t, c.apply showFloat t = .ok (c.effect showFloat t) := by
  cases c with
  | language p_lang =>
    simp only [SetterCall.apply, Except.ok.injEq] at h
    exact ⟨h.symm, fun t => rfl⟩
  | resultType p_res =>
    simp only [SetterCall.apply] at h
    match p_res, h with
    | 0, h =>
      simp only [setResultType, Except.ok.injEq] at h
      exact ⟨h.symm, fun t => rfl⟩
    | 1, h =>
      simp only [setResultType, Except.ok.injEq] at h
      exact ⟨h.symm, fun t => rfl⟩
    | 2, h =>
      simp only [setResultType, Except.ok.injEq] at h
      exact ⟨h.symm, fun t => rfl⟩
    | n + 3, h => simp [setResultType] at h
  | untilDate p_time =>
    simp only [SetterCall.apply, Except.ok.injEq] at h
    exact ⟨h.symm, fun t => rfl⟩
  | geoPosition p_geo =>
    simp only [SetterCall.apply, Except.ok.injEq] at h
    exact ⟨h.symm, fun t => rfl⟩
  | resultCount p_num =>
    simp only [SetterCall.apply] at h
    by_cases hn : 1 ≤ p_num ∧ p_num ≤ 1500
    · rw [setResultCount_ok s p_num hn.1 hn.2, Except.ok.injEq] at h
      exact ⟨h.symm, fun t => setResultCount_ok t p_num hn.1 hn.2⟩
    · rw [setResultCount_error s p_num (by omega)] at h
      cases h

theorem or_right_comm (u a b : Nat) : (u ||| a) ||| b = (u ||| b) ||| a := by
  rw [Nat.or_assoc, Nat.or_comm a b, ← Nat.or_assoc]

theorem SetterCall.effect_comm (showFloat : Float32 → String) (c d : SetterCall L)
    (hne : c.field ≠ d.field) (s : searchparameter L) :
    d.effect showFloat (c.effect showFloat s) = c.effect showFloat (d.effect showFloat s) := by
  cases c <;> cases d <;>
    first
    | exact absurd rfl hne
    | simp only [SetterCall.effect, setLanguage, setUntilDate, setGeoPosition,
        or_right_comm s.m_use]

theorem applyCalls_cons_ok (showFloat : Float32 → String) (c : SetterCall L)
    (cs : List (SetterCall L)) (s s' : searchparameter L) :
    applyCalls showFloat (c :: cs) s = .ok s' ↔
      ∃ s1, c.apply showFloat s = .ok s1 ∧ applyCalls showFloat cs s1 = .ok s' := by
  rw [applyCalls]
  cases h : c.apply showFloat s with
  | ok s1 => simp
  | error e => simp

theorem applyCalls_perm (showFloat : Float32 → String) {l1 l2 : List (SetterCall L)}
    (hp : l1.Perm l2) :
    l1.Pairwise (fun a b => a.field ≠ b.field) →
      ∀ s s' : searchparameter L, applyCalls showFloat l1 s = .ok s' →
        applyCalls showFloat l2 s = .ok s' := by
  induction hp with
  | nil => exact fun _ _ _ h => h
  | cons x _ ih =>
    intro hd s s' h
    rw [applyCalls_cons_ok] at h ⊢
    obtain ⟨s1, h1, h2⟩ := h
    exact ⟨s1, h1, ih (List.pairwise_cons.1 hd).2 s1 s' h2⟩
  | swap x y l =>
    intro hd s s' h
    rw [applyCalls_cons_ok] at h ⊢
    obtain ⟨s1, h1, h2⟩ := h
    rw [applyCalls_cons_ok] at h2
    obtain ⟨s2, h3, h4⟩ := h2
    have hne : y.field ≠ x.field := (List.pairwise_cons.1 hd).1 x (List.mem_cons_self _ _)
    obtain ⟨e1, a1⟩ := SetterCall.apply_eq_effect showFloat y h1
    obtain ⟨e2, a2⟩ := SetterCall.apply_eq_effect showFloat x h3
    refine ⟨_, a2 s, ?_⟩
    rw [applyCalls_cons_ok]
    refine ⟨_, a1 _, ?_⟩
    rw [← SetterCall.effect_comm showFloat y x hne s, ← e1, ← e2]
    exact h4
  | trans h12 _ ih1 ih2 =>
    intro hd s s' h
    have hd2 := (h12.pairwise_iff (fun {a b} (hab : a.field ≠ b.field) => hab.symm)).1 hd
    exact ih2 hd2 s s' (ih1 hd s s' h)

/-- C3: the rendered query string does not depend on the order of the setter
calls.  For every list of setter calls on pairwise distinct fields that
succeeds on a fresh parameter set, every permutation of the list succeeds as
well and yields the same rendered string; in particular setting geo, then
language, then result type renders the same as setting them in the reverse
order. -/
theorem render_order_independent (showFloat : Float32 → String) :
    (∀ (calls calls' : List (SetterCall L)) (s1 : searchparameter L),
      calls.Pairwise (fun a b => a.field ≠ b.field) → calls.Perm calls' →
      applyCalls showFloat calls (searchparameter.new L) = .ok s1 →
      ∃ s2, applyCalls showFloat calls' (searchparameter.new L) = .ok s2 ∧
        render s2 = render s1) ∧
    (∀ (p_geo : geoposition) (p_lang : L.code) (p_res : resulttype) (s1 : searchparameter L),
      setResultType (setLanguage (setGeoPosition showFloat (searchparameter.new L) p_geo) p_lang)
        p_res = .ok s1 →
      ∃ s2, setResultType (searchparameter.new L) p_res = .ok s2 ∧
        render (setGeoPosition showFloat (setLanguage s2 p_lang) p_geo) = render s1) := by
  refine ⟨fun calls calls' s1 hd hp h => ⟨s1, applyCalls_perm showFloat hp hd _ _ h, rfl⟩,
    fun p_geo p_lang p_res s1 h => ?_⟩
  have h1 : applyCalls showFloat
      [SetterCall.geoPosition p_geo, SetterCall.language p_lang, SetterCall.resultType p_res]
      (searchparameter.new L) = .ok s1 := by
    rw [applyCalls_cons_ok]
    refine ⟨_, rfl, ?_⟩
    rw [applyCalls_cons_ok]
    refine ⟨_, rfl, ?_⟩
    rw [applyCalls_cons_ok]
    exact ⟨s1, h, rfl⟩
  have h2 : applyCalls showFloat
      [SetterCall.resultType p_res, SetterCall.language p_lang, SetterCall.geoPosition p_geo]
      (searchparameter.new L) = .ok s1 :=
    applyCalls_perm showFloat (List.reverse_perm _).symm (by simp [SetterCall.field]) _ _ h1
  rw [applyCalls_cons_ok] at h2
  obtain ⟨s2, hs2, h3⟩ := h2
  rw [applyCalls_cons_ok] at h3
  obtain ⟨s3, hs3, h4⟩ := h3
  rw [applyCalls_cons_ok] at h4
  obtain ⟨s4, hs4, h5⟩ := h4
  simp only [SetterCall.apply, Except.ok.injEq, applyCalls] at hs3 hs4 h5
  refine ⟨s2, hs2, ?_⟩
  rw [hs3, hs4, h5]

theorem render_order_independent_witness :
    ∃ s2, applyCalls (fun _ => "1") [SetterCall.resultType recent, SetterCall.language true,
        SetterCall.geoPosition ⟨⟨0⟩, ⟨0⟩, ⟨0⟩, miles⟩] (searchparameter.new Language.sample)
          = .ok s2 ∧
      render s2 = "lang=de&result_type=recent&geocode=1,1,1mi&" :=
  (@render_order_independent Language.sample (fun _ => "1")).1
    [SetterCall.geoPosition ⟨⟨0⟩, ⟨0⟩, ⟨0⟩, miles⟩, SetterCall.language true,
      SetterCall.resultType recent]
    [SetterCall.resultType recent, SetterCall.language true,
      SetterCall.geoPosition ⟨⟨0⟩, ⟨0⟩, ⟨0⟩, miles⟩]
    { m_use := 11, m_lang := true, m_resulttype := "recent", m_until := "",
      m_geo := "1,1,1mi", m_resultcount := 0 }
    (by decide) (List.reverse_perm _).symm rfl

/-! ## The geo position (C5) -/

theorem Float32.abs_neg (x : Float32) : x.neg.abs = x.abs := by
  simp only [Float32.abs, Float32.neg, Float32.mk.injEq]
  omega

theorem Float32.abs_minusFive : Float32.minusFive.abs = Float32.five := by decide

theorem setGeoPosition_m_geo (showFloat : Float32 → String) (s : searchparameter L)
    (p_geo : geoposition) (hu : p_geo.length = kilometer ∨ p_geo.length = miles) :
    (setGeoPosition showFloat s p_geo).m_geo =
      showFloat p_geo.latitude ++ "," ++ showFloat p_geo.longitude ++ ","
        ++ showFloat p_geo.radius.abs ++ (if p_geo.length = kilometer then "km" else "mi") := by
  obtain ⟨lat, lon, r, u⟩ := p_geo
  rcases hu with hu | hu <;> simp only at hu <;> subst hu <;> rfl

theorem render_geo_flag (s : searchparameter L) (h : s.m_use &&& 8 ≠ 0) :
    ∃ pre post, render s = pre ++ ("geocode=" ++ s.m_geo ++ "&") ++ post := by
  refine ⟨(if s.m_use &&& 1 ≠ 0 then "lang=" ++ L.toString s.m_lang ++ "&" else "")
      ++ ((if s.m_use &&& 2 ≠ 0 then "result_type=" ++ s.m_resulttype ++ "&" else "")
      ++ (if s.m_use &&& 4 ≠ 0 then "until=" ++ s.m_until ++ "&" else "")),
    (if s.m_use &&& 16 ≠ 0 then "rpp=" ++ toString s.m_resultcount ++ "&" else ""), ?_⟩
  rw [render_eq, if_pos h]
  simp only [String.append_assoc]

/-- C5: for every geo position with unit kilometer or miles, `setGeoPosition`
followed by the rendering emits `geocode=<latitude>,<longitude>,<|r|><suffix>&`
with suffix `km` for kilometer and `mi` for miles.  The radius written is the
absolute value of `r`: the number with the sign bit clear and every other bit
of `r` kept, so a radius that is not negative is written as it is, `r` and `-r`
give the same parameter set, and radius -5 with unit miles is written like
radius 5: the geocode ends in `,5mi` when 5 is written as `5`. -/
theorem setGeoPosition_renders_geocode (showFloat : Float32 → String) (s : searchparameter L)
    (p_geo : geoposition) (hu : p_geo.length = kilometer ∨ p_geo.length = miles) :
    let suffix := if p_geo.length = kilometer then "km" else "mi"
    let value := showFloat p_geo.latitude ++ "," ++ showFloat p_geo.longitude ++ ","
      ++ showFloat p_geo.radius.abs ++ suffix
    (∃ pre post, render (setGeoPosition showFloat s p_geo)
        = pre ++ ("geocode=" ++ value ++ "&") ++ post) ∧
    render (setGeoPosition showFloat (searchparameter.new L) p_geo)
        = "geocode=" ++ value ++ "&" ∧
    p_geo.radius.abs.bits < 2 ^ 31 ∧
    p_geo.radius.abs.bits % 2 ^ 31 = p_geo.radius.bits % 2 ^ 31 ∧
    (p_geo.radius.bits < 2 ^ 31 → p_geo.radius.abs = p_geo.radius ∧
      render (setGeoPosition showFloat (searchparameter.new L) p_geo)
        = "geocode=" ++ (showFloat p_geo.latitude ++ "," ++ showFloat p_geo.longitude ++ ","
            ++ showFloat p_geo.radius ++ suffix) ++ "&") ∧
    setGeoPosition showFloat s { p_geo with radius := p_geo.radius.neg }
        = setGeoPosition showFloat s p_geo ∧
    (p_geo.radius = Float32.minusFive → p_geo.length = miles →
      (setGeoPosition showFloat s p_geo).m_geo
          = showFloat p_geo.latitude ++ "," ++ showFloat p_geo.longitude ++ ","
            ++ showFloat Float32.five ++ "mi" ∧
      (showFloat Float32.five = "5" →
        ∃ pre, (setGeoPosition showFloat s p_geo).m_geo = pre ++ ",5mi")) := by
  intro suffix value
  have hgeo := setGeoPosition_m_geo showFloat s p_geo hu
  have hflag : ∀ t : searchparameter L, (setGeoPosition showFloat t p_geo).m_use &&& 8 ≠ 0 :=
    fun t => (flag_or t.m_use 3 3).2 (Or.inr rfl)
  have hnew : render (setGeoPosition showFloat (searchparameter.new L) p_geo)
      = "geocode=" ++ value ++ "&" := by
    rw [render_single _ 3 rfl, setGeoPosition_m_geo showFloat _ p_geo hu]
    simp only [OfNat.ofNat_ne_zero, OfNat.ofNat_ne_one, Nat.reduceEqDiff, if_true, if_false,
      String.empty_append, String.append_empty]
  have hkeep : p_geo.radius.bits < 2 ^ 31 → p_geo.radius.abs = p_geo.radius := by
    intro hr
    show Float32.mk (p_geo.radius.bits % 2 ^ 31) = p_geo.radius
    rw [Nat.mod_eq_of_lt hr]
  refine ⟨?_, hnew, ?_, ?_, ?_, ?_, ?_⟩
  · have h := render_geo_flag _ (hflag s)
    rwa [hgeo] at h
  · exact Nat.mod_lt _ (by norm_num)
  · exact Nat.mod_mod _ _
  · intro hr
    refine ⟨hkeep hr, ?_⟩
    rw [hnew]
    show "geocode=" ++ (showFloat p_geo.latitude ++ "," ++ showFloat p_geo.longitude ++ ","
      ++ showFloat p_geo.radius.abs ++ suffix) ++ "&" = _
    rw [hkeep hr]
  · simp only [setGeoPosition, Float32.abs_neg]
  · intro hr hm
    have h5 : (setGeoPosition showFloat s p_geo).m_geo
        = showFloat p_geo.latitude ++ "," ++ showFloat p_geo.longitude ++ ","
          ++ showFloat Float32.five ++ "mi" := by
      rw [hgeo, hr, Float32.abs_minusFive, hm]
      rfl
    refine ⟨h5, fun hshow => ⟨showFloat p_geo.latitude ++ "," ++ showFloat p_geo.longitude, ?_⟩⟩
    rw [h5, hshow]
    simp only [String.append_assoc]
    rfl

theorem setGeoPosition_renders_geocode_witness :
    render (setGeoPosition (fun x => if x = Float32.five then "5" else "0")
        (searchparameter.new Language.sample) ⟨⟨0⟩, ⟨0⟩, Float32.minusFive, miles⟩)
      = "geocode=0,0,5mi&" :=
  (setGeoPosition_renders_geocode (fun x => if x = Float32.five then "5" else "0")
    (searchparameter.new Language.sample) ⟨⟨0⟩, ⟨0⟩, Float32.minusFive, miles⟩
    (Or.inr rfl)).2.1

/-! ## The until-date (C6) -/

/-- C6: for 5 January 2012 (`tm_year = 112`, `tm_mon = 0`, `tm_mday = 5`) the
setter `setUntilDate` followed by the rendering emits `until=2012-00-05&`: the
month written is the 0-based `tm_mon`, not the month number of the calendar
date `2012-01-05`. -/
theorem setUntilDate_january (L : Language) :
    render (setUntilDate (searchparameter.new L) ⟨112, 0, 5⟩) = "until=2012-00-05&" ∧
    render (setUntilDate (searchparameter.new L) ⟨112, 0, 5⟩) ≠ "until=2012-01-05&" := by
  have h : render (setUntilDate (searchparameter.new L) ⟨112, 0, 5⟩) = "until=2012-00-05&" := by
    rw [render_single _ 2 rfl]
    simp only [OfNat.ofNat_ne_zero, OfNat.ofNat_ne_one, Nat.reduceEqDiff, if_true, if_false,
      String.empty_append, String.append_empty, setUntilDate]
    decide
  refine ⟨h, ?_⟩
  rw [h]
  decide

/-! ## The status check (C7, C8) -/

theorem sendRequest_of_statusLine (m_httpagent : String) (p_socket : socket)
    (p_query p_server : String) (p_socket' : socket) (l_response_stream : istream)
    (l_http_version : String) (l_status : Nat)
    (h : readStatusLine
        { p_socket with sent := p_socket.sent ++ requestText m_httpagent p_query p_server }
      = (p_socket', .ok (l_response_stream, l_http_version, l_status)))
    (hf : l_response_stream.failbit = false)
    (hv : String.mk (l_http_version.data.take 5) = "HTTP/") :
    sendRequest m_httpagent p_socket p_query p_server =
      match throwHTTPError l_status with
      | .error e => (p_socket', .error e)
      | .ok () => readContent p_socket' l_response_stream := by
  unfold sendRequest
  simp only [h, hf, hv, bne_self_eq_false, Bool.or_self, Bool.false_eq_true, if_false]

theorem throwHTTPError_ok_of_not_listed (c : Nat) (hc : listedCode c = false) (h0 : c ≠ 0) :
    throwHTTPError c = .ok () := by
  unfold throwHTTPError
  split <;> first | rfl | exact absurd rfl h0 | exact absurd hc (by decide)

theorem throwHTTPError_error_of_listed (c : Nat) (hc : listedCode c = true) (h306 : c ≠ 306) :
    ∃ msg, throwHTTPError c = .error (.runtime msg) := by
  simp only [listedCode, Bool.or_eq_true, Bool.and_eq_true, decide_eq_true_eq] at hc
  rcases hc with ((⟨a, b⟩ | ⟨a, b⟩) | ⟨a, b⟩) | ⟨a, b⟩ <;> interval_cases c <;>
    first | exact absurd rfl h306 | exact ⟨_, rfl⟩

/-- C7, as stated, fails at 306: the code lies in the range 300 to 307 that the
spec lists, yet the status check raises no error for it and an exchange with
this status returns the body. -/
theorem throwHTTPError_306 :
    listedCode 306 = true ∧ throwHTTPError 306 = .ok () ∧
    (sendRequest "agent" (socket.serving ["HTTP/1.1 306 Unused\r\nA: b\r\n\r\nbody"])
        "/q" "host").2 = .ok "body" := by
  decide

/-- C7, amended: for every status code in 203 to 206, 300 to 305, 307, 400 to 417
or 500 to 505 the status check fails with an HTTP status error, and an exchange
whose status line carries such a code ends with that error on the socket as
it is after the read of the status line; 404 fails with the reason text
`Not Found`, and 204 fails as well. -/
theorem throwHTTPError_fails (c : Nat) (hc : listedCode c = true) (h306 : c ≠ 306) :
    (∃ msg, throwHTTPError c = .error (.runtime msg) ∧
      ∀ (m_httpagent : String) (p_socket : socket) (p_query p_server : String)
        (p_socket' : socket) (l_response_stream : istream) (l_http_version : String),
        readStatusLine
            { p_socket with sent := p_socket.sent ++ requestText m_httpagent p_query p_server }
          = (p_socket', .ok (l_response_stream, l_http_version, c)) →
        l_response_stream.failbit = false →
        String.mk (l_http_version.data.take 5) = "HTTP/" →
        sendRequest m_httpagent p_socket p_query p_server
          = (p_socket', .error (.runtime msg))) ∧
    throwHTTPError 404 = .error (.runtime "Not Found") ∧
    throwHTTPError 204 = .error (.runtime "No Content") := by
  obtain ⟨msg, hmsg⟩ := throwHTTPError_error_of_listed c hc h306
  refine ⟨⟨msg, hmsg, ?_⟩, rfl, rfl⟩
  intro m_httpagent p_socket p_query p_server p_socket' l_response_stream l_http_version h hf hv
  rw [sendRequest_of_statusLine _ _ _ _ _ _ _ _ h hf hv, hmsg]

theorem throwHTTPError_fails_witness :
    ∃ msg, throwHTTPError 404 = .error (.runtime msg) ∧
      sendRequest "agent" (socket.serving ["HTTP/1.1 404 Not Found\r\n\r\nbo", "dy"]) "/q" "host"
        = ({ is_open := true, sent := requestText "agent" "/q" "host", pending := ["dy"],
             ending := .eof, reads := 1 }, .error (.runtime msg)) := by
  obtain ⟨msg, hmsg, h⟩ := (throwHTTPError_fails 404 (by decide) (by decide)).1
  exact ⟨msg, hmsg, h "agent" (socket.serving ["HTTP/1.1 404 Not Found\r\n\r\nbo", "dy"])
    "/q" "host" _ ⟨"\r\nbo".data, false, false⟩ "HTTP/1.1" (by decide) rfl (by decide)⟩

/-- C8, as stated, fails at 0: the code is in none of the listed ranges, yet the
status check raises an error for it and the exchange ends without reading the
body. -/
theorem throwHTTPError_zero :
    listedCode 0 = false ∧
    throwHTTPError 0 = .error (.runtime "error while reading socket data") ∧
    (sendRequest "agent" (socket.serving ["HTTP/1.1 0 none\r\nA: b\r\n\r\nbody"])
        "/q" "host").2 = .error (.runtime "error while reading socket data") := by
  decide

/-- C8, amended: for every status code other than 0 that is not in 203 to 206,
300 to 307, 400 to 417 or 500 to 505 (this includes 200, 201, 202, 100, 207, 418
and 999) the status check raises no error, and an exchange whose status line
carries such a code goes on to read the content. -/
theorem throwHTTPError_passes (c : Nat) (hc : listedCode c = false) (h0 : c ≠ 0) :
    throwHTTPError c = .ok () ∧
    (∀ (m_httpagent : String) (p_socket : socket) (p_query p_server : String)
      (p_socket' : socket) (l_response_stream : istream) (l_http_version : String),
      readStatusLine
          { p_socket with sent := p_socket.sent ++ requestText m_httpagent p_query p_server }
        = (p_socket', .ok (l_response_stream, l_http_version, c)) →
      l_response_stream.failbit = false →
      String.mk (l_http_version.data.take 5) = "HTTP/" →
      sendRequest m_httpagent p_socket p_query p_server
        = readContent p_socket' l_response_stream) ∧
    throwHTTPError 200 = .ok () ∧ throwHTTPError 201 = .ok () ∧ throwHTTPError 202 = .ok () ∧
    throwHTTPError 100 = .ok () ∧ throwHTTPError 207 = .ok () ∧ throwHTTPError 418 = .ok () ∧
    throwHTTPError 999 = .ok () := by
  have hok := throwHTTPError_ok_of_not_listed c hc h0
  refine ⟨hok, ?_, rfl, rfl, rfl, rfl, rfl, rfl, rfl⟩
  intro m_httpagent p_socket p_query p_server p_socket' l_response_stream l_http_version h hf hv
  rw [sendRequest_of_statusLine _ _ _ _ _ _ _ _ h hf hv, hok]

theorem throwHTTPError_passes_witness :
    sendRequest "agent" (socket.serving ["HTTP/1.1 200 OK\r\nA: b\r\n\r\nbo", "dy"]) "/q" "host"
      = readContent
          { is_open := true, sent := requestText "agent" "/q" "host", pending := ["dy"],
            ending := .eof, reads := 1 }
          ⟨"A: b\r\n\r\nbo".data, false, false⟩ ∧
    (sendRequest "agent" (socket.serving ["HTTP/1.1 200 OK\r\nA: b\r\n\r\nbo", "dy"])
      "/q" "host").2 = .ok "body" :=
  ⟨(throwHTTPError_passes 200 (by decide) (by decide)).2.1 "agent"
    (socket.serving ["HTTP/1.1 200 OK\r\nA: b\r\n\r\nbo", "dy"]) "/q" "host" _
    ⟨"A: b\r\n\r\nbo".data, false, false⟩ "HTTP/1.1" (by decide) rfl (by decide), by decide⟩

/-! ## The tree printer on arrays and objects (C9, C10) -/

theorem printElements_eq (showDouble : Float64 → String) (path : String) :
    ∀ (elements : List Value) (index : Nat),
      printElements showDouble elements index path =
        (elements.enumFrom index).flatMap fun p =>
          printValueTree showDouble p.2 (path ++ "[" ++ toString p.1 ++ "]")
  | [], _ => by simp [printElements]
  | element :: rest, index => by
    rw [printElements, printElements_eq showDouble path rest (index + 1)]
    simp only [List.enumFrom_cons, List.flatMap_cons, String.append_assoc]

theorem lookup_printMembers (showDouble : Float64 → String) (name : String) :
    ∀ members : List (String × Value),
      (printMembers showDouble members).lookup name
        = (members.lookup name).map (printValueTree showDouble)
  | [] => by simp [printMembers]
  | (k, v) :: rest => by
    rw [printMembers, List.lookup_cons, List.lookup_cons,
      lookup_printMembers showDouble name rest]
    cases name == k <;> rfl

theorem lookup_of_mem_keys {name : String} :
    ∀ {members : List (String × Value)}, name ∈ members.map Prod.fst →
      ∃ v, members.lookup name = some v
  | [], h => by simp at h
  | (k, v) :: rest, h => by
    rw [List.lookup_cons]
    by_cases hk : name = k
    · exact ⟨v, by simp [hk]⟩
    · have hmem : name ∈ rest.map Prod.fst := by
        rcases List.mem_cons.1 h with h | h
        · exact absurd h hk
        · exact h
      obtain ⟨w, hw⟩ := lookup_of_mem_keys hmem
      have hb : (name == k) = false := beq_eq_false_iff_ne.2 hk
      exact ⟨w, by rw [hb]; exact hw⟩

theorem lookup_of_mem {name : String} {v : Value} :
    ∀ {members : List (String × Value)}, (members.map Prod.fst).Nodup →
      (name, v) ∈ members → members.lookup name = some v
  | [], _, h => by simp at h
  | (k, w) :: rest, hnd, h => by
    rw [List.lookup_cons]
    rw [List.map_cons, List.nodup_cons] at hnd
    rcases List.mem_cons.1 h with h | h
    · cases h
      simp
    · have hk : name ≠ k := fun hkk =>
        hnd.1 (List.mem_map.2 ⟨(name, v), h, hkk⟩)
      have hb : (name == k) = false := beq_eq_false_iff_ne.2 hk
      rw [hb]
      exact lookup_of_mem hnd.2 h

theorem pathSuffix_of_dot (p : String) : pathSuffix (p ++ ".") = "" := by
  unfold pathSuffix
  rw [if_pos]
  rw [String.data_append]
  exact List.getLast?_concat _

theorem pathSuffix_of_no_dot (path : String) (h : ¬ ∃ p, path = p ++ ".") :
    pathSuffix path = "." := by
  unfold pathSuffix
  rw [if_neg]
  intro hlast
  obtain ⟨ys, hys⟩ := List.getLast?_eq_some_iff.1 hlast
  exact h ⟨String.mk ys, String.ext (by rw [hys, String.data_append])⟩

theorem sortNames_perm (names : List String) : (sortNames names).Perm names :=
  List.perm_insertionSort _ _

theorem sortNames_pairwise (names : List String) (hnd : names.Nodup) :
    (sortNames names).Pairwise (fun a b => a.data < b.data) := by
  have htotal : IsTotal String (fun a b => a.data ≤ b.data) :=
    ⟨fun a b => le_total a.data b.data⟩
  have htrans : IsTrans String (fun a b => a.data ≤ b.data) :=
    ⟨fun a b c hab hbc => le_trans hab hbc⟩
  have hsorted : (sortNames names).Pairwise (fun a b => a.data ≤ b.data) :=
    List.sorted_insertionSort _ names
  have hnodup : (sortNames names).Pairwise (fun a b => a ≠ b) :=
    (sortNames_perm names).nodup_iff.2 hnd
  refine (hsorted.and hnodup).imp ?_
  rintro a b ⟨hle, hne⟩
  exact lt_of_le_of_ne hle (fun h => hne (String.ext h))

theorem flatMap_members (showDouble : Float64 → String) (members : List (String × Value))
    (path : String) :
    ∀ names : List String, (∀ name ∈ names, name ∈ members.map Prod.fst) →
      (names.flatMap fun name =>
        match (printMembers showDouble members).lookup name with
        | some printMember => printMember (path ++ pathSuffix path ++ name)
        | none => [path ++ pathSuffix path ++ name ++ "=null"])
      = (names.filterMap fun name => (members.lookup name).map fun v => (name, v)).flatMap
          fun m => printValueTree showDouble m.2 (path ++ pathSuffix path ++ m.1)
  | [], _ => rfl
  | name :: rest, h => by
    obtain ⟨v, hv⟩ := lookup_of_mem_keys (h name (List.mem_cons_self _ _))
    have ih := flatMap_members showDouble members path rest
      (fun k hk => h k (List.mem_cons_of_mem _ hk))
    rw [List.flatMap_cons, ih, List.filterMap_cons]
    simp only [lookup_printMembers, hv, Option.map_some', List.flatMap_cons]

/-- C9: for every JSON object with distinct member names and every non-empty
path, the printer first emits the marker line `path=\x7b\x7d` and then, for the
members taken in ascending lexicographic order of their names, the complete
rendering of each member at `path ++ sep ++ name`, where `sep` is empty if the
path ends with a dot and a dot otherwise; the tree `\x7b"a": 1, "b": [true, null]\x7d`
at the path `.` gives the lines `.=\x7b\x7d`, `.a=1`, `.b=[]`, `.b[0]=true`,
`.b[1]=null`. -/
theorem printValueTree_object (showDouble : Float64 → String)
    (members : List (String × Value)) (path : String)
    (hnames : (members.map Prod.fst).Nodup) (hpath : path ≠ "") :
    (∃ (sorted : List (String × Value)) (sep : String),
      sorted.Perm members ∧
      sorted.Pairwise (fun a b => a.1.data < b.1.data) ∧
      ((∃ p, path = p ++ ".") → sep = "") ∧
      ((¬ ∃ p, path = p ++ ".") → sep = ".") ∧
      printValueTree showDouble (.objectValue members) path =
        (path ++ "=\x7b\x7d") ::
          sorted.flatMap fun m => printValueTree showDouble m.2 (path ++ sep ++ m.1)) ∧
    printValueTree showDouble
        (.objectValue [("a", .intValue 1), ("b", .arrayValue [.booleanValue true, .nullValue])])
        "."
      = [".=\x7b\x7d", ".a=1", ".b=[]", ".b[0]=true", ".b[1]=null"] := by
  refine ⟨⟨(sortNames (members.map Prod.fst)).filterMap
      (fun name => (members.lookup name).map fun v => (name, v)), pathSuffix path,
    ?_, ?_, ?_, pathSuffix_of_no_dot path, ?_⟩, rfl⟩
  · refine ((sortNames_perm _).filterMap _).trans ?_
    rw [List.filterMap_map]
    have hcongr : List.filterMap
        ((fun name => (members.lookup name).map fun v => (name, v)) ∘ Prod.fst) members
          = List.filterMap some members := by
      apply List.filterMap_congr
      rintro ⟨k, v⟩ hkv
      simp only [Function.comp, lookup_of_mem hnames hkv, Option.map_some']
    rw [hcongr, List.filterMap_some]
  · refine List.Pairwise.filterMap _ ?_ (sortNames_pairwise _ hnames)
    intro a a' haa' b hb b' hb'
    simp only [Option.mem_def, Option.map_eq_some'] at hb hb'
    obtain ⟨_, _, rfl⟩ := hb
    obtain ⟨_, _, rfl⟩ := hb'
    exact haa'
  · rintro ⟨p, rfl⟩
    exact pathSuffix_of_dot p
  · rw [printValueTree]
    rw [flatMap_members showDouble members path _
      (fun name hname => (sortNames_perm _).mem_iff.1 hname)]

theorem printValueTree_object_witness :
    ∃ (sorted : List (String × Value)) (sep : String),
      sorted.Perm [("b", .nullValue), ("a", .intValue 1)] ∧
      sorted.Pairwise (fun a b => a.1.data < b.1.data) ∧
      ((∃ p, "x" = p ++ ".") → sep = "") ∧
      ((¬ ∃ p, "x" = p ++ ".") → sep = ".") ∧
      printValueTree (fun _ => "") (.objectValue [("b", .nullValue), ("a", .intValue 1)]) "x" =
        ("x" ++ "=\x7b\x7d") ::
          sorted.flatMap fun m => printValueTree (fun _ => "") m.2 ("x" ++ sep ++ m.1) :=
  (printValueTree_object (fun _ => "") [("b", .nullValue), ("a", .intValue 1)] "x"
    (by decide) (by decide)).1

/-- C10: for every JSON array and every path, the printer first emits the marker
line `path=[]` and then, for `i = 0, 1, ..., size - 1` in the original order of
the array, the complete rendering of element `i` at the path `path[i]` with `i`
written in decimal; an empty array emits only the marker line. -/
theorem printValueTree_array (showDouble : Float64 → String) (elements : List Value)
    (path : String) :
    printValueTree showDouble (.arrayValue elements) path =
      (path ++ "=[]") ::
        elements.enum.flatMap (fun p =>
          printValueTree showDouble p.2 (path ++ "[" ++ toString p.1 ++ "]")) ∧
    elements.enum.map Prod.fst = List.range elements.length ∧
    elements.enum.map Prod.snd = elements ∧
    printValueTree showDouble (.arrayValue []) path = [path ++ "=[]"] := by
  refine ⟨?_, ?_, ?_, ?_⟩
  · rw [printValueTree, printElements_eq]
    rfl
  · exact List.enum_map_fst elements
  · exact List.enum_map_snd elements
  · simp [printValueTree, printElements]

/-! ## What the socket operations leave unchanged -/

theorem read_some_sent (p_socket : socket) :
    (read_some p_socket).1.sent = p_socket.sent ∧
      (read_some p_socket).1.is_open = p_socket.is_open := by
  unfold read_some
  cases p_socket.pending <;> exact ⟨rfl, rfl⟩

theorem read_until_loop_sent (delim : List Char) :
    ∀ (pending : List String) (p_socket : socket) (buffer : List Char),
      (read_until_loop delim pending p_socket buffer).1.sent = p_socket.sent ∧
        (read_until_loop delim pending p_socket buffer).1.is_open = p_socket.is_open
  | [], p_socket, buffer => by
    unfold read_until_loop
    split
    · exact ⟨rfl, rfl⟩
    · exact read_some_sent p_socket
  | d :: ds, p_socket, buffer => by
    unfold read_until_loop
    split
    · exact ⟨rfl, rfl⟩
    · have ih := read_until_loop_sent delim ds (read_some p_socket).1 (buffer ++ d.data)
      have h := read_some_sent p_socket
      exact ⟨ih.1.trans h.1, ih.2.trans h.2⟩

theorem read_all_loop_sent :
    ∀ (pending : List String) (p_socket : socket) (buffer : List Char),
      (read_all_loop pending p_socket buffer).1.sent = p_socket.sent ∧
        (read_all_loop pending p_socket buffer).1.is_open = p_socket.is_open
  | [], p_socket, _ => by
    unfold read_all_loop
    exact read_some_sent p_socket
  | d :: ds, p_socket, buffer => by
    unfold read_all_loop
    have ih := read_all_loop_sent ds (read_some p_socket).1 (buffer ++ d.data)
    have h := read_some_sent p_socket
    exact ⟨ih.1.trans h.1, ih.2.trans h.2⟩

theorem readStatusLine_sent (p_socket : socket) :
    (readStatusLine p_socket).1.sent = p_socket.sent ∧
      (readStatusLine p_socket).1.is_open = p_socket.is_open := by
  have h := read_until_loop_sent "\r\n".data p_socket.pending p_socket []
  simp only [readStatusLine, read_until]
  generalize read_until_loop "\r\n".data p_socket.pending p_socket [] = r at h
  obtain ⟨q, b, o⟩ := r
  cases o <;> exact h

theorem readContent_sent (p_socket : socket) (l_response_stream : istream) :
    (readContent p_socket l_response_stream).1.sent = p_socket.sent ∧
      (readContent p_socket l_response_stream).1.is_open = p_socket.is_open := by
  have h := read_until_loop_sent "\r\n\r\n".data p_socket.pending p_socket
    l_response_stream.rdbuf
  simp only [readContent, read_until]
  generalize read_until_loop "\r\n\r\n".data p_socket.pending p_socket
    l_response_stream.rdbuf = r at h
  obtain ⟨q, b, o⟩ := r
  cases o with
  | some ec => exact h
  | none =>
    have h2 := read_all_loop_sent q.pending q []
    simp only
    generalize read_all_loop q.pending q [] = r2 at h2
    obtain ⟨q', b', e'⟩ := r2
    simp only
    split <;> exact ⟨h2.1.trans h.1, h2.2.trans h.2⟩

theorem sendRequest_sent (m_httpagent : String) (p_socket : socket)
    (p_query p_server : String) :
    (sendRequest m_httpagent p_socket p_query p_server).1.sent
        = p_socket.sent ++ requestText m_httpagent p_query p_server ∧
      (sendRequest m_httpagent p_socket p_query p_server).1.is_open = p_socket.is_open := by
  have h := readStatusLine_sent
    { p_socket with sent := p_socket.sent ++ requestText m_httpagent p_query p_server }
  simp only [sendRequest]
  generalize readStatusLine
    { p_socket with sent := p_socket.sent ++ requestText m_httpagent p_query p_server } = r at h
  obtain ⟨q, ec | ⟨st, ver, code⟩⟩ := r
  · exact h
  · simp only
    split
    · exact h
    · split
      · exact h
      · have h2 := readContent_sent q st
        exact ⟨h2.1.trans h.1, h2.2.trans h.2⟩

/-! ## The search call (C12, C13, C14, C17, C18) -/

theorem operatorShl_eq (p_stream : String) (p_obj : searchparameter L) :
    operatorShl p_stream p_obj = p_stream ++ render p_obj := by
  rw [render_eq]
  unfold operatorShl
  by_cases h1 : p_obj.m_use &&& 1 = 0 <;> by_cases h2 : p_obj.m_use &&& 2 = 0 <;>
    by_cases h4 : p_obj.m_use &&& 4 = 0 <;> by_cases h8 : p_obj.m_use &&& 8 = 0 <;>
    by_cases h16 : p_obj.m_use &&& 16 = 0 <;>
    simp only [h1, h2, h4, h8, h16, ne_eq, not_true_eq_false, not_false_eq_true, if_true,
      if_false, String.append_assoc, String.empty_append, String.append_empty]

theorem render_new (L : Language) : render (searchparameter.new L) = "" := by
  simp [render_eq, searchparameter.new]

/-- C12: a search with an empty query text fails with the validation error before
any I/O, for every parameter set and every state of the object: the object is
left as it was, so no connection attempt is made, no request is written and the
stored search parameters are not replaced. -/
theorem search_empty_query (urlencode : String → String) (parse : String → Option Value)
    (showDouble : Float64 → String) (peer : endpoint) (self : twitter L)
    (p_params : searchparameter L) :
    search urlencode parse showDouble peer self "" p_params
      = (self, .error (.runtime "search query need not be empty")) ∧
    (search urlencode parse showDouble peer self "" p_params).1.connects = self.connects ∧
    (search urlencode parse showDouble peer self "" p_params).1.m_socketsearch.sent
      = self.m_socketsearch.sent ∧
    (search urlencode parse showDouble peer self "" p_params).1.m_socketsearch.reads
      = self.m_socketsearch.reads ∧
    (search urlencode parse showDouble peer self "" p_params).1.m_searchparameter
      = self.m_searchparameter := by
  have h : search urlencode parse showDouble peer self "" p_params
      = (self, .error (.runtime "search query need not be empty")) := by
    unfold search
    rw [if_pos rfl]
  rw [h]
  exact ⟨rfl, rfl, rfl, rfl, rfl⟩

theorem requestText_eq (m_httpagent p_query p_server : String) :
    requestText m_httpagent p_query p_server =
      "GET " ++ p_query ++ " HTTP/1.1\r\nHost: " ++ p_server
        ++ "\r\nAccept: */*\r\nUser-Agent: " ++ m_httpagent ++ "\r\nConnection: close\r\n\r\n" := by
  have e1 : ∀ x : String, " HTTP/1.1\r\n" ++ ("Host: " ++ x) = " HTTP/1.1\r\nHost: " ++ x :=
    fun x => (String.append_assoc _ _ _).symm
  have e2 : ∀ x : String, "\r\n" ++ ("Accept: */*\r\n" ++ ("User-Agent: " ++ x))
      = "\r\nAccept: */*\r\nUser-Agent: " ++ x :=
    fun x => by rw [← String.append_assoc, ← String.append_assoc]; rfl
  have e3 : ("\r\n" ++ "Connection: close\r\n\r\n" : String) = "\r\nConnection: close\r\n\r\n" :=
    rfl
  simp only [requestText, String.append_assoc, e1, e2, e3]

/-- C13: for every path, host and agent string, and whatever the peer answers, the
bytes the exchange writes to the connection are exactly the request line
`GET <path> HTTP/1.1`, the headers `Host`, `Accept`, `User-Agent` and
`Connection: close` in that order, and a terminating blank line, with no
request body. -/
theorem sendRequest_writes_request (m_httpagent : String) (p_socket : socket)
    (p_query p_server : String) :
    (sendRequest m_httpagent p_socket p_query p_server).1.sent =
      p_socket.sent ++
        ("GET " ++ p_query ++ " HTTP/1.1\r\nHost: " ++ p_server
          ++ "\r\nAccept: */*\r\nUser-Agent: " ++ m_httpagent
          ++ "\r\nConnection: close\r\n\r\n") := by
  rw [(sendRequest_sent m_httpagent p_socket p_query p_server).1, requestText_eq]

theorem search_of_connect (urlencode : String → String) (parse : String → Option Value)
    (showDouble : Float64 → String) (peer : endpoint) (self : twitter L)
    (p_search : String) (p_params : searchparameter L) (hq : p_search ≠ "")
    (m_socketsearch : socket) (hconn : self.m_socketsearch.connect peer = (m_socketsearch, none)) :
    search urlencode parse showDouble peer self p_search p_params =
      match sendRequest self.m_httpagent m_socketsearch
          (searchQuery urlencode p_search p_params) "search.twitter.com" with
      | (m_socketsearch, .error e) =>
        ({ self with m_searchparameter := p_params, m_socketsearch := m_socketsearch,
                     connects := self.connects + 1 }, .error e)
      | (m_socketsearch, .ok l_json) =>
        if l_json = "" then
          ({ self with m_searchparameter := p_params, m_socketsearch := m_socketsearch.close,
                       connects := self.connects + 1 },
            .error (.runtime "no JSON data received"))
        else
          match parse l_json with
          | none =>
            ({ self with m_searchparameter := p_params, m_socketsearch := m_socketsearch.close,
                         connects := self.connects + 1 },
              .error (.runtime "JSON data can not be parsed"))
          | some l_twitterroot =>
            ({ self with m_searchparameter := p_params, m_socketsearch := m_socketsearch.close,
                         connects := self.connects + 1 },
              .ok (printValueTree showDouble l_twitterroot ".")) := by
  simp only [search, if_neg hq, hconn]

/-- C14: for every non-empty query text `q` and every parameter set `p`, the
request path of a search is `/search.json?q=` followed by `urlencode q`, then
`&`, then the rendering of `p`; with the parameters of a fresh parameter set the
path is `/search.json?q=<urlencode q>&`.  Once the connection is made, the
request written for the search carries this path and the host
`search.twitter.com`. -/
theorem search_request_path (urlencode : String → String) (parse : String → Option Value)
    (showDouble : Float64 → String) (peer : endpoint) (self : twitter L)
    (q : String) (p : searchparameter L) (hq : q ≠ "") :
    searchQuery urlencode q p = "/search.json?q=" ++ urlencode q ++ "&" ++ render p ∧
    searchQuery urlencode q (searchparameter.new L) = "/search.json?q=" ++ urlencode q ++ "&" ∧
    (∀ m_socketsearch, self.m_socketsearch.connect peer = (m_socketsearch, none) →
      (search urlencode parse showDouble peer self q p).1.m_socketsearch.sent =
        m_socketsearch.sent ++ requestText self.m_httpagent
          ("/search.json?q=" ++ urlencode q ++ "&" ++ render p) "search.twitter.com") := by
  have hpath : ∀ p' : searchparameter L,
      searchQuery urlencode q p' = "/search.json?q=" ++ urlencode q ++ "&" ++ render p' :=
    fun p' => operatorShl_eq _ p'
  refine ⟨hpath p, ?_, ?_⟩
  · rw [hpath, render_new, String.append_empty]
  · intro m_socketsearch hconn
    rw [search_of_connect urlencode parse showDouble peer self q p hq m_socketsearch hconn,
      ← hpath p]
    have hsent := (sendRequest_sent self.m_httpagent m_socketsearch
      (searchQuery urlencode q p) "search.twitter.com").1
    generalize sendRequest self.m_httpagent m_socketsearch
      (searchQuery urlencode q p) "search.twitter.com" = r at hsent
    obtain ⟨c, e | body⟩ := r
    · exact hsent
    · simp only
      split
      · exact hsent
      · split <;> exact hsent

theorem search_request_path_witness :
    (search id (fun _ => none) (fun _ => "")
        ⟨true, ["HTTP/1.1 200 OK\r\nA: b\r\n\r\nnull"], .eof⟩
        (twitter.new Language.sample) "x" (searchparameter.new Language.sample)
      ).1.m_socketsearch.sent =
      "GET /search.json?q=x& HTTP/1.1\r\nHost: search.twitter.com\r\nAccept: */*\r\nUser-Agent: Machine Learning Framework\r\nConnection: close\r\n\r\n" :=
  (search_request_path id (fun _ => none) (fun _ => "")
    ⟨true, ["HTTP/1.1 200 OK\r\nA: b\r\n\r\nnull"], .eof⟩
    (twitter.new Language.sample) "x" (searchparameter.new Language.sample) (by decide)).2.2
    _ rfl

/-- C17: when the exchange of a search returns a zero-length body, the search fails
with the error `no JSON data received`, whatever the JSON parser and the printer
would do, so neither is invoked; when the body is not empty, the search fails
with the error `JSON data can not be parsed` if and only if the parser rejects
the body, and otherwise prints the parsed tree. -/
theorem search_body (urlencode : String → String) (peer : endpoint) (self : twitter L)
    (q : String) (p : searchparameter L) (m_socketsearch m_socketsearch' : socket)
    (l_json : String) (hq : q ≠ "")
    (hconn : self.m_socketsearch.connect peer = (m_socketsearch, none))
    (hsend : sendRequest self.m_httpagent m_socketsearch (searchQuery urlencode q p)
        "search.twitter.com" = (m_socketsearch', .ok l_json)) :
    (l_json = "" → ∀ (parse : String → Option Value) (showDouble : Float64 → String),
      (search urlencode parse showDouble peer self q p).2
        = .error (.runtime "no JSON data received")) ∧
    (l_json ≠ "" → ∀ (parse : String → Option Value) (showDouble : Float64 → String),
      ((search urlencode parse showDouble peer self q p).2
          = .error (.runtime "JSON data can not be parsed") ↔ parse l_json = none) ∧
      (∀ l_twitterroot, parse l_json = some l_twitterroot →
        (search urlencode parse showDouble peer self q p).2
          = .ok (printValueTree showDouble l_twitterroot "."))) := by
  refine ⟨fun h0 parse showDouble => ?_, fun h0 parse showDouble => ?_⟩
  · rw [search_of_connect urlencode parse showDouble peer self q p hq _ hconn, hsend]
    simp only [h0, if_true]
  · rw [search_of_connect urlencode parse showDouble peer self q p hq _ hconn, hsend]
    simp only [h0, if_false]
    cases hp : parse l_json with
    | none => simp
    | some v => simp

theorem search_body_witness :
    (search id (fun _ => some .nullValue) (fun _ => "")
        ⟨true, ["HTTP/1.1 200 OK\r\nA: b\r\n\r\n"], .eof⟩
        (twitter.new Language.sample) "x" (searchparameter.new Language.sample)).2
      = .error (.runtime "no JSON data received") :=
  (search_body id ⟨true, ["HTTP/1.1 200 OK\r\nA: b\r\n\r\n"], .eof⟩
    (twitter.new Language.sample) "x" (searchparameter.new Language.sample) _ _ ""
    (by decide) rfl rfl).1 rfl (fun _ => some .nullValue) (fun _ => "")

theorem search_of_sendRequest_error (urlencode : String → String)
    (parse : String → Option Value) (showDouble : Float64 → String)
    (peer : endpoint) (self : twitter L) (q : String) (p : searchparameter L)
    (m_socketsearch m_socketsearch' : socket) (e : Exception)
    (hq : q ≠ "") (hconn : self.m_socketsearch.connect peer = (m_socketsearch, none))
    (hsend : sendRequest self.m_httpagent m_socketsearch (searchQuery urlencode q p)
      "search.twitter.com" = (m_socketsearch', .error e)) :
    (search urlencode parse showDouble peer self q p).2 = .error e ∧
    (search urlencode parse showDouble peer self q p).1.m_socketsearch.is_open = true := by
  have hopen := (sendRequest_sent self.m_httpagent m_socketsearch
    (searchQuery urlencode q p) "search.twitter.com").2
  rw [search_of_connect urlencode parse showDouble peer self q p hq _ hconn, hsend]
  rw [hsend] at hopen
  refine ⟨rfl, ?_⟩
  simp only at hopen ⊢
  rw [hopen]
  unfold socket.connect at hconn
  split at hconn
  · simp at hconn
  · split at hconn
    · simp only [Prod.mk.injEq, and_true] at hconn
      rw [← hconn]
    · simp at hconn

theorem sendRequest_one_piece (m_httpagent p_query p_server : String) :
    sendRequest m_httpagent
      { is_open := true, sent := "", pending := ["HTTP/1.1 404 Not Found\r\n\r\n"],
        ending := .eof, reads := 0 } p_query p_server
      = ({ is_open := true, sent := "" ++ requestText m_httpagent p_query p_server,
           pending := [], ending := .eof, reads := 1 }, .error (.runtime "Not Found")) ∧
    sendRequest m_httpagent
      { is_open := true, sent := "", pending := ["FTP/1.0 404 x\r\n\r\n"],
        ending := .eof, reads := 0 } p_query p_server
      = ({ is_open := true, sent := "" ++ requestText m_httpagent p_query p_server,
           pending := [], ending := .eof, reads := 1 }, .error (.runtime "invalid response")) ∧
    sendRequest m_httpagent
      { is_open := true, sent := "", pending := ["HTTP/1.1 200 OK\r\nA: b\r\n\r\nnu"],
        ending := .failure, reads := 0 } p_query p_server
      = ({ is_open := true, sent := "" ++ requestText m_httpagent p_query p_server,
           pending := [], ending := .failure, reads := 2 },
          .error (.runtime "data can not be received")) ∧
    sendRequest m_httpagent
      { is_open := true, sent := "", pending := ["HTTP/1.1 200 OK\r\nA: b\r\n\r\nnu", "ll"],
        ending := .eof, reads := 0 } p_query p_server
      = ({ is_open := true, sent := "" ++ requestText m_httpagent p_query p_server,
           pending := [], ending := .eof, reads := 3 }, .ok "null") :=
  ⟨rfl, rfl, rfl, rfl⟩

/-- C18: a search whose exchange fails leaves the socket open.  On an object
whose socket is closed, a search that is answered with the status 404 fails
with `Not Found`, one answered with the status line `FTP/1.0 404 x` fails with
`invalid response`, and one whose connection breaks while the content is read
fails with `data can not be received`; each time the call `close` of `search`
is not reached and the socket is open after the search.  After a search that
prints its result the socket is closed. -/
theorem search_error_leaves_socket_open (urlencode : String → String)
    (parse : String → Option Value) (showDouble : Float64 → String) :
    ((search urlencode parse showDouble ⟨true, ["HTTP/1.1 404 Not Found\r\n\r\n"], .eof⟩
        (twitter.new L) "x" (searchparameter.new L)).2 = .error (.runtime "Not Found") ∧
     (search urlencode parse showDouble ⟨true, ["HTTP/1.1 404 Not Found\r\n\r\n"], .eof⟩
        (twitter.new L) "x" (searchparameter.new L)).1.m_socketsearch.is_open = true) ∧
    ((search urlencode parse showDouble ⟨true, ["FTP/1.0 404 x\r\n\r\n"], .eof⟩
        (twitter.new L) "x" (searchparameter.new L)).2 = .error (.runtime "invalid response") ∧
     (search urlencode parse showDouble ⟨true, ["FTP/1.0 404 x\r\n\r\n"], .eof⟩
        (twitter.new L) "x" (searchparameter.new L)).1.m_socketsearch.is_open = true) ∧
    ((search urlencode parse showDouble ⟨true, ["HTTP/1.1 200 OK\r\nA: b\r\n\r\nnu"], .failure⟩
        (twitter.new L) "x" (searchparameter.new L)).2
          = .error (.runtime "data can not be received") ∧
     (search urlencode parse showDouble ⟨true, ["HTTP/1.1 200 OK\r\nA: b\r\n\r\nnu"], .failure⟩
        (twitter.new L) "x" (searchparameter.new L)).1.m_socketsearch.is_open = true) ∧
    (search urlencode (fun _ => some .nullValue) showDouble
        ⟨true, ["HTTP/1.1 200 OK\r\nA: b\r\n\r\nnu", "ll"], .eof⟩
        (twitter.new L) "x" (searchparameter.new L)).2 = .ok [".=null"] ∧
    (search urlencode (fun _ => some .nullValue) showDouble
        ⟨true, ["HTTP/1.1 200 OK\r\nA: b\r\n\r\nnu", "ll"], .eof⟩
        (twitter.new L) "x" (searchparameter.new L)).1.m_socketsearch.is_open = false := by
  have h := sendRequest_one_piece (twitter.new L).m_httpagent
    (searchQuery urlencode "x" (searchparameter.new L)) "search.twitter.com"
  refine ⟨?_, ?_, ?_, ?_⟩
  · exact search_of_sendRequest_error urlencode parse showDouble _ _ "x" _ _ _ _
      (by decide) rfl h.1
  · exact search_of_sendRequest_error urlencode parse showDouble _ _ "x" _ _ _ _
      (by decide) rfl h.2.1
  · exact search_of_sendRequest_error urlencode parse showDouble _ _ "x" _ _ _ _
      (by decide) rfl h.2.2.1
  · have hs := search_of_connect urlencode (fun _ => some .nullValue) showDouble
      ⟨true, ["HTTP/1.1 200 OK\r\nA: b\r\n\r\nnu", "ll"], .eof⟩ (twitter.new L) "x"
      (searchparameter.new L) (by decide)
      { is_open := true, sent := "", pending := ["HTTP/1.1 200 OK\r\nA: b\r\n\r\nnu", "ll"],
        ending := .eof, reads := 0 } rfl
    rw [hs, h.2.2.2]
    exact ⟨rfl, rfl⟩

/-! ## The invariant of the parameter set (C19) -/

theorem flag_keep (u j k : Nat) (h : j ≠ k) :
    (u ||| 2 ^ j) &&& 2 ^ k ≠ 0 ↔ u &&& 2 ^ k ≠ 0 := by
  rw [flag_or]
  exact ⟨fun h' => h'.resolve_right h, Or.inl⟩

theorem Invariant.new (L : Language) : Invariant (searchparameter.new L) := by
  refine ⟨fun h => absurd ?_ h, fun h => absurd ?_ h⟩ <;> simp [searchparameter.new]

theorem Invariant.run (showFloat : Float32 → String) (c : SetterCall L)
    {s : searchparameter L} (hs : Invariant s) : Invariant (c.run showFloat s) := by
  obtain ⟨hcount, htype⟩ := hs
  cases c with
  | language p_lang =>
    exact ⟨fun h => hcount ((flag_keep s.m_use 0 4 (by decide)).1 h),
      fun h => htype ((flag_keep s.m_use 0 1 (by decide)).1 h)⟩
  | untilDate p_time =>
    exact ⟨fun h => hcount ((flag_keep s.m_use 2 4 (by decide)).1 h),
      fun h => htype ((flag_keep s.m_use 2 1 (by decide)).1 h)⟩
  | geoPosition p_geo =>
    exact ⟨fun h => hcount ((flag_keep s.m_use 3 4 (by decide)).1 h),
      fun h => htype ((flag_keep s.m_use 3 1 (by decide)).1 h)⟩
  | resultType p_res =>
    match p_res with
    | 0 =>
      exact ⟨fun h => hcount ((flag_keep s.m_use 1 4 (by decide)).1 h), fun _ => Or.inl rfl⟩
    | 1 =>
      exact ⟨fun h => hcount ((flag_keep s.m_use 1 4 (by decide)).1 h),
        fun _ => Or.inr (Or.inl rfl)⟩
    | 2 =>
      exact ⟨fun h => hcount ((flag_keep s.m_use 1 4 (by decide)).1 h),
        fun _ => Or.inr (Or.inr rfl)⟩
    | n + 3 => exact ⟨hcount, htype⟩
  | resultCount p_num =>
    by_cases hn : 1 ≤ p_num ∧ p_num ≤ 1500
    · have hrun : (SetterCall.resultCount p_num).run showFloat s
          = { s with m_resultcount := p_num, m_use := s.m_use ||| 16 } := by
        simp only [SetterCall.run, SetterCall.apply, setResultCount_ok s p_num hn.1 hn.2]
      rw [hrun]
      exact ⟨fun _ => hn, fun h => htype ((flag_keep s.m_use 4 1 (by decide)).1 h)⟩
    · have hrun : (SetterCall.resultCount p_num).run showFloat s = s := by
        simp only [SetterCall.run, SetterCall.apply, setResultCount_error s p_num (by omega)]
      rw [hrun]
      exact ⟨hcount, htype⟩

theorem Invariant.runCalls (showFloat : Float32 → String) :
    ∀ (calls : List (SetterCall L)) (s : searchparameter L), Invariant s →
      Invariant (runCalls showFloat calls s)
  | [], _, hs => hs
  | c :: cs, _, hs => Invariant.runCalls showFloat cs _ (Invariant.run showFloat c hs)

/-- C19: for every parameter set reached from the constructor by a finite sequence
of setter calls, calls that fail included, if the presence flag of the result
count is set then the stored result count lies in [1,1500], and if the presence
flag of the result type is set then the stored result type is one of the
strings `mixed`, `recent`, `popular`. -/
theorem invariant_reachable (showFloat : Float32 → String) (calls : List (SetterCall L)) :
    ((runCalls showFloat calls (searchparameter.new L)).m_use &&& 16 ≠ 0 →
      1 ≤ (runCalls showFloat calls (searchparameter.new L)).m_resultcount ∧
      (runCalls showFloat calls (searchparameter.new L)).m_resultcount ≤ 1500) ∧
    ((runCalls showFloat calls (searchparameter.new L)).m_use &&& 2 ≠ 0 →
      (runCalls showFloat calls (searchparameter.new L)).m_resulttype = "mixed" ∨
      (runCalls showFloat calls (searchparameter.new L)).m_resulttype = "recent" ∨
      (runCalls showFloat calls (searchparameter.new L)).m_resulttype = "popular") :=
  Invariant.runCalls showFloat calls _ (Invariant.new L)

theorem invariant_reachable_witness :
    1 ≤ (runCalls (fun _ => "") [SetterCall.resultCount 7, SetterCall.resultCount 0,
        SetterCall.resultType 9, SetterCall.resultType recent]
        (searchparameter.new Language.sample)).m_resultcount ∧
    (runCalls (fun _ => "") [SetterCall.resultCount 7, SetterCall.resultCount 0,
        SetterCall.resultType 9, SetterCall.resultType recent]
        (searchparameter.new Language.sample)).m_resultcount ≤ 1500 :=
  (invariant_reachable (fun _ => "") [SetterCall.resultCount 7, SetterCall.resultCount 0,
    SetterCall.resultType 9, SetterCall.resultType recent]).1 (by decide)

/-! ## The status line (C15, C20) -/

theorem isspace_of_isdigit {c : Char} (h : isdigit c = true) :
    isspace c = false ∧ c ≠ '-' ∧ c ≠ '+' := by
  refine ⟨?_, ?_, ?_⟩
  · by_contra hs
    simp only [isspace, Bool.not_eq_false, Bool.or_eq_true, beq_iff_eq] at hs
    rcases hs with ((((rfl | rfl) | rfl) | rfl) | rfl) | rfl <;> exact absurd h (by decide)
  · rintro rfl
    exact absurd h (by decide)
  · rintro rfl
    exact absurd h (by decide)

theorem extractString_token (v tail : List Char) (c0 : Char) (old : String)
    (hv : v ≠ []) (hvs : ∀ c ∈ v, isspace c = false) (hc0 : isspace c0 = true) :
    extractString ⟨v ++ c0 :: tail, false, false⟩ old
      = (⟨c0 :: tail, false, false⟩, String.mk v) := by
  obtain ⟨a, v', rfl⟩ := List.exists_cons_of_ne_nil hv
  have ha : isspace a = false := hvs a (List.mem_cons_self _ _)
  have hdrop : ((a :: v') ++ c0 :: tail).dropWhile isspace = (a :: v') ++ c0 :: tail := by
    rw [List.cons_append, List.dropWhile_cons_of_neg (by simp [ha])]
  have hall : ∀ c ∈ a :: v', (fun c => !isspace c) c = true := fun c hc => by simp [hvs c hc]
  have htake : ((a :: v') ++ c0 :: tail).takeWhile (fun c => !isspace c) = a :: v' := by
    rw [List.takeWhile_append_of_pos hall, List.takeWhile_cons_of_neg (by simp [hc0]),
      List.append_nil]
  have hrest : ((a :: v') ++ c0 :: tail).dropWhile (fun c => !isspace c) = c0 :: tail := by
    rw [List.dropWhile_append_of_pos hall, List.dropWhile_cons_of_neg (by simp [hc0])]
  simp only [extractString, istream.good, hdrop, htake, hrest]
  rfl

theorem extractUnsigned_digits (ws ds tail : List Char) (old : Nat)
    (hws : ∀ c ∈ ws, isspace c = true) (hds : ds ≠ []) (hd : ∀ c ∈ ds, isdigit c = true)
    (ht : ∀ c, tail.head? = some c → isdigit c = false) (htail : tail ≠ [])
    (hval : decimalValue ds < 2 ^ 32) :
    extractUnsigned ⟨ws ++ (ds ++ tail), false, false⟩ old
      = (⟨tail, false, false⟩, decimalValue ds) := by
  obtain ⟨a, ds', rfl⟩ := List.exists_cons_of_ne_nil hds
  obtain ⟨t, tail', rfl⟩ := List.exists_cons_of_ne_nil htail
  have ha := isspace_of_isdigit (hd a (List.mem_cons_self _ _))
  have ht' : isdigit t = false := ht t rfl
  have hdrop : (ws ++ ((a :: ds') ++ t :: tail')).dropWhile isspace
      = a :: (ds' ++ t :: tail') := by
    rw [List.dropWhile_append_of_pos hws, List.cons_append,
      List.dropWhile_cons_of_neg (by simp [ha.1])]
  have htake : (a :: (ds' ++ t :: tail')).takeWhile isdigit = a :: ds' := by
    rw [← List.cons_append, List.takeWhile_append_of_pos hd,
      List.takeWhile_cons_of_neg (by simp [ht']), List.append_nil]
  have hrest : (a :: (ds' ++ t :: tail')).dropWhile isdigit = t :: tail' := by
    rw [← List.cons_append, List.dropWhile_append_of_pos hd,
      List.dropWhile_cons_of_neg (by simp [ht'])]
  have hminus : (some a == some '-') = false := by simpa using ha.2.1
  have hplus : (some a == some '+') = false := by simpa using ha.2.2
  have hge : ¬ decimalValue (a :: ds') ≥ 2 ^ 32 := by omega
  simp only [extractUnsigned, istream.good, hdrop, List.head?_cons, hminus, hplus,
    Bool.not_false, Bool.and_self, Bool.not_true, Bool.false_eq_true, if_false, Bool.or_self,
    List.isEmpty_cons, htake, hrest, hge]

theorem getline_line (msg rest : List Char) (old : String) (hmsg : '\n' ∉ msg) :
    getline ⟨msg ++ '\n' :: rest, false, false⟩ old = (⟨rest, false, false⟩, String.mk msg) := by
  have hall : ∀ c ∈ msg, (fun c : Char => c != '\n') c = true := fun c hc => by
    have : c ≠ '\n' := fun h => hmsg (h ▸ hc)
    simpa using this
  have htake : (msg ++ '\n' :: rest).takeWhile (fun c => c != '\n') = msg := by
    rw [List.takeWhile_append_of_pos hall, List.takeWhile_cons_of_neg (by simp),
      List.append_nil]
  have hrest : (msg ++ '\n' :: rest).dropWhile (fun c => c != '\n') = '\n' :: rest := by
    rw [List.dropWhile_append_of_pos hall, List.dropWhile_cons_of_neg (by simp)]
  simp only [getline, istream.good, htake, hrest]
  rfl

theorem readStatusLine_wellFormed (p_socket p_socket' : socket) (l : StatusLine)
    (rest : List Char) (hl : l.WellFormed)
    (hread : read_until p_socket [] "\r\n" = (p_socket', l.text ++ '\n' :: rest, none)) :
    readStatusLine p_socket
      = (p_socket', .ok (⟨rest, false, false⟩, String.mk l.version, l.code)) := by
  obtain ⟨hv, hvs, hb, hbs, hd, hds, hval, hm, hnl⟩ := hl
  obtain ⟨c0, blank', hblank⟩ := List.exists_cons_of_ne_nil hb
  have hc0 : isspace c0 = true := (hbs c0 (by rw [hblank]; exact List.mem_cons_self _ _)).1
  have hws : ∀ c ∈ c0 :: blank', isspace c = true := fun c hc => (hbs c (hblank ▸ hc)).1
  have htext : l.text ++ '\n' :: rest
      = l.version ++ c0 :: (blank' ++ (l.digits ++ (l.message ++ '\n' :: rest))) := by
    simp only [StatusLine.text, hblank, List.append_assoc, List.cons_append]
  have htail : ∀ c, (l.message ++ '\n' :: rest).head? = some c → isdigit c = false := by
    intro c hc
    cases hmsg : l.message with
    | nil =>
      rw [hmsg] at hc
      simp only [List.nil_append, List.head?_cons, Option.some.injEq] at hc
      rw [← hc]
      decide
    | cons m ms =>
      rw [hmsg] at hc
      simp only [List.cons_append, List.head?_cons, Option.some.injEq] at hc
      exact hm c (by rw [hmsg, ← hc]; rfl)
  simp only [readStatusLine, hread, htext]
  rw [extractString_token l.version _ c0 "" hv hvs hc0]
  simp only
  rw [← List.cons_append,
    extractUnsigned_digits (c0 :: blank') l.digits (l.message ++ '\n' :: rest) 0 hws hd hds
      htail (by simp) hval]
  simp only
  rw [getline_line l.message rest "" hnl]
  rfl

theorem sendRequest_wellFormed (m_httpagent : String) (p_socket : socket)
    (p_query p_server : String) (p_socket' : socket) (l : StatusLine) (rest : List Char)
    (hl : l.WellFormed)
    (hread : read_until
        { p_socket with sent := p_socket.sent ++ requestText m_httpagent p_query p_server }
        [] "\r\n" = (p_socket', l.text ++ '\n' :: rest, none)) :
    sendRequest m_httpagent p_socket p_query p_server =
      if "HTTP/".data <+: l.version then
        match throwHTTPError l.code with
        | .error e => (p_socket', .error e)
        | .ok () => readContent p_socket' ⟨rest, false, false⟩
      else (p_socket', .error (.runtime "invalid response")) := by
  have hiff : String.mk (l.version.take 5) = "HTTP/" ↔ "HTTP/".data <+: l.version := by
    constructor
    · intro h
      have h' : l.version.take 5 = "HTTP/".data := congrArg String.data h
      rw [← h']
      exact List.take_prefix 5 l.version
    · intro h
      have h' := List.prefix_iff_eq_take.1 h
      exact String.ext h'.symm
  simp only [sendRequest, readStatusLine_wellFormed _ _ l rest hl hread]
  by_cases hp : "HTTP/".data <+: l.version
  · rw [if_pos hp]
    have h1 : String.mk (l.version.take 5) = "HTTP/" := hiff.2 hp
    simp only [h1, bne_self_eq_false, Bool.or_self, Bool.false_eq_true, if_false]
  · rw [if_neg hp]
    have h1 : String.mk (l.version.take 5) ≠ "HTTP/" := fun h => hp (hiff.1 h)
    have h2 : (String.mk (l.version.take 5) != "HTTP/") = true := by simpa using h1
    simp only [h2, Bool.or_true, if_true]

/-- C15: for every response in which the first white-space-delimited token of the
data that the read of the status line receives does not begin with `HTTP/`, the
exchange fails with the error `invalid response`, whatever the status code is;
the socket is left as it is after that read.  The status line `FTP/1.0 404 x`
gives `invalid response` and not the HTTP status error of 404. -/
theorem sendRequest_invalid_version (m_httpagent : String) (p_socket : socket)
    (p_query p_server : String) (p_socket' : socket) (l_response : List Char)
    (hread : read_until
        { p_socket with sent := p_socket.sent ++ requestText m_httpagent p_query p_server }
        [] "\r\n" = (p_socket', l_response, none))
    (htoken : ¬ "HTTP/".data <+:
        (l_response.dropWhile isspace).takeWhile (fun c => !isspace c)) :
    sendRequest m_httpagent p_socket p_query p_server
        = (p_socket', .error (.runtime "invalid response")) ∧
    (sendRequest m_httpagent (socket.serving ["FTP/1.0 404 x\r\n\r\n"]) p_query p_server).2
        = .error (.runtime "invalid response") ∧
    throwHTTPError 404 = .error (.runtime "Not Found") := by
  refine ⟨?_, rfl, rfl⟩
  have hver : String.mk
      ((extractString ⟨l_response, false, false⟩ "").2.data.take 5) ≠ "HTTP/" := by
    intro h
    have h' : (extractString ⟨l_response, false, false⟩ "").2.data.take 5 = "HTTP/".data :=
      congrArg String.data h
    simp only [extractString, istream.good, Bool.not_false, Bool.and_self, Bool.not_true,
      Bool.false_eq_true, if_false] at h'
    split at h'
    · exact absurd h' (by decide)
    · apply htoken
      simp only at h'
      have hp := List.take_prefix 5
        (List.takeWhile (fun c => !isspace c) (List.dropWhile isspace l_response))
      rw [h'] at hp
      exact hp
  have hbne : (String.mk ((extractString ⟨l_response, false, false⟩ "").2.data.take 5)
      != "HTTP/") = true := by simpa using hver
  simp only [sendRequest, readStatusLine, hread, hbne, Bool.or_true, if_true]

theorem sendRequest_invalid_version_witness :
    sendRequest "agent" (socket.serving ["FTP/1.0 404 x\r\n", "\r\n"]) "/q" "host"
      = ({ is_open := true, sent := requestText "agent" "/q" "host", pending := ["\r\n"],
           ending := .eof, reads := 1 }, .error (.runtime "invalid response")) :=
  (sendRequest_invalid_version "agent" (socket.serving ["FTP/1.0 404 x\r\n", "\r\n"]) "/q"
    "host" _ "FTP/1.0 404 x\r\n".data (by decide) (by decide)).1

/-- C20: when the status code of a response is one for which the status check
throws, the exchange stops at the status line.  For any two responses that
share a well-formed status line, whatever bytes follow it and however they
arrive, the outcome of the exchange is the same, it is the error of the status
check when the version begins with `HTTP/`, and the socket is left as it is
after the read of the status line: no read is issued after that read. -/
theorem sendRequest_stops_at_status_line (m_httpagent : String) (p_query p_server : String)
    (s1 s2 s1' s2' : socket) (l : StatusLine) (rest1 rest2 : List Char) (e : Exception)
    (hl : l.WellFormed) (hcode : throwHTTPError l.code = .error e)
    (h1 : read_until
        { s1 with sent := s1.sent ++ requestText m_httpagent p_query p_server }
        [] "\r\n" = (s1', l.text ++ '\n' :: rest1, none))
    (h2 : read_until
        { s2 with sent := s2.sent ++ requestText m_httpagent p_query p_server }
        [] "\r\n" = (s2', l.text ++ '\n' :: rest2, none)) :
    (sendRequest m_httpagent s1 p_query p_server).2
      = (sendRequest m_httpagent s2 p_query p_server).2 ∧
    (sendRequest m_httpagent s1 p_query p_server).1 = s1' ∧
    (sendRequest m_httpagent s2 p_query p_server).1 = s2' ∧
    ("HTTP/".data <+: l.version →
      (sendRequest m_httpagent s1 p_query p_server).2 = .error e ∧
      (sendRequest m_httpagent s2 p_query p_server).2 = .error e) := by
  rw [sendRequest_wellFormed m_httpagent s1 p_query p_server s1' l rest1 hl h1,
    sendRequest_wellFormed m_httpagent s2 p_query p_server s2' l rest2 hl h2, hcode]
  by_cases hp : "HTTP/".data <+: l.version
  · rw [if_pos hp, if_pos hp]
    exact ⟨rfl, rfl, rfl, fun _ => ⟨rfl, rfl⟩⟩
  · rw [if_neg hp, if_neg hp]
    exact ⟨rfl, rfl, rfl, fun h => absurd h hp⟩

theorem sendRequest_stops_at_status_line_witness :
    (sendRequest "agent" (socket.serving ["HTTP/1.1 404 Not Found\r\nA: b\r\n\r\nbody"])
        "/q" "host").2
      = (sendRequest "agent" (socket.serving ["HTTP/1.1 404 Not Found\r\n", "C: d\r\n\r\n"])
        "/q" "host").2 ∧
    (sendRequest "agent" (socket.serving ["HTTP/1.1 404 Not Found\r\nA: b\r\n\r\nbody"])
        "/q" "host").1
      = { is_open := true, sent := requestText "agent" "/q" "host", pending := [],
          ending := .eof, reads := 1 } ∧
    (sendRequest "agent" (socket.serving ["HTTP/1.1 404 Not Found\r\n", "C: d\r\n\r\n"])
        "/q" "host").1
      = { is_open := true, sent := requestText "agent" "/q" "host", pending := ["C: d\r\n\r\n"],
          ending := .eof, reads := 1 } :=
  have h := sendRequest_stops_at_status_line "agent" "/q" "host"
    (socket.serving ["HTTP/1.1 404 Not Found\r\nA: b\r\n\r\nbody"])
    (socket.serving ["HTTP/1.1 404 Not Found\r\n", "C: d\r\n\r\n"]) _ _
    ⟨"HTTP/1.1".data, " ".data, "404".data, " Not Found\r".data⟩
    "A: b\r\n\r\nbody".data [] (.runtime "Not Found") (by decide) (by decide)
    (by decide) (by decide)
  ⟨h.1, h.2.1, h.2.2.1⟩

/-! ## Independence of the order of the members (C11) -/

theorem printElements_append (showDouble : Float64 → String) (path : String) :
    ∀ (xs ys : List Value) (index : Nat),
      printElements showDouble (xs ++ ys) index path =
        printElements showDouble xs index path
          ++ printElements showDouble ys (index + xs.length) path
  | [], ys, index => by simp [printElements]
  | x :: xs, ys, index => by
    rw [List.cons_append, printElements, printElements,
      printElements_append showDouble path xs ys (index + 1), List.length_cons]
    simp only [List.append_assoc]
    rw [Nat.add_assoc, Nat.add_comm 1]

theorem printMembers_append (showDouble : Float64 → String) :
    ∀ (xs ys : List (String × Value)),
      printMembers showDouble (xs ++ ys)
        = printMembers showDouble xs ++ printMembers showDouble ys
  | [], ys => by simp [printMembers]
  | (k, v) :: xs, ys => by
    rw [List.cons_append, printMembers, printMembers, printMembers_append showDouble xs ys,
      List.cons_append]

theorem DistinctNames.elements_iff :
    ∀ elements : List Value,
      DistinctNames.elements elements ↔ ∀ v ∈ elements, v.DistinctNames
  | [] => by simp [DistinctNames.elements]
  | v :: vs => by
    rw [DistinctNames.elements, DistinctNames.elements_iff vs]
    simp

theorem DistinctNames.members_iff :
    ∀ members : List (String × Value),
      DistinctNames.members members ↔ ∀ m ∈ members, m.2.DistinctNames
  | [] => by simp [DistinctNames.members]
  | (k, v) :: ms => by
    rw [DistinctNames.members, DistinctNames.members_iff ms]
    simp

theorem lookup_none_of_not_mem_keys {name : String} :
    ∀ {members : List (String × Value)}, name ∉ members.map Prod.fst →
      members.lookup name = none
  | [], _ => rfl
  | (k, v) :: rest, h => by
    rw [List.map_cons, List.mem_cons, not_or] at h
    have hb : (name == k) = false := beq_eq_false_iff_ne.2 h.1
    rw [List.lookup_cons, hb]
    exact lookup_none_of_not_mem_keys h.2

theorem lookup_perm {ms ms' : List (String × Value)} (hp : ms.Perm ms')
    (hnd : (ms.map Prod.fst).Nodup) (name : String) :
    ms.lookup name = ms'.lookup name := by
  have hnd' : (ms'.map Prod.fst).Nodup := (hp.map Prod.fst).nodup_iff.1 hnd
  by_cases hmem : name ∈ ms.map Prod.fst
  · obtain ⟨⟨k, v⟩, hkv, hk⟩ := List.mem_map.1 hmem
    simp only at hk
    subst hk
    rw [lookup_of_mem hnd hkv, lookup_of_mem hnd' (hp.mem_iff.1 hkv)]
  · have hmem' : name ∉ ms'.map Prod.fst := fun h => hmem ((hp.map Prod.fst).mem_iff.2 h)
    rw [lookup_none_of_not_mem_keys hmem, lookup_none_of_not_mem_keys hmem']

theorem sortNames_eq_of_perm {l1 l2 : List String} (hp : l1.Perm l2) :
    sortNames l1 = sortNames l2 := by
  have htotal : IsTotal String (fun a b => a.data ≤ b.data) :=
    ⟨fun a b => le_total a.data b.data⟩
  have htrans : IsTrans String (fun a b => a.data ≤ b.data) :=
    ⟨fun a b c hab hbc => le_trans hab hbc⟩
  have hanti : IsAntisymm String (fun a b => a.data ≤ b.data) :=
    ⟨fun a b hab hba => String.ext (le_antisymm hab hba)⟩
  exact List.eq_of_perm_of_sorted
    (((sortNames_perm l1).trans hp).trans (sortNames_perm l2).symm)
    (List.sorted_insertionSort _ l1) (List.sorted_insertionSort _ l2)

theorem printValueTree_reordered (showDouble : Float64 → String) {v w : Value}
    (h : Reordered v w) :
    v.DistinctNames →
      w.DistinctNames ∧ ∀ path, printValueTree showDouble v path = printValueTree showDouble w path := by
  induction h with
  | refl v => exact fun hv => ⟨hv, fun _ => rfl⟩
  | members ms ms' hp =>
    intro hv
    rw [Value.DistinctNames] at hv
    refine ⟨?_, fun path => ?_⟩
    · rw [Value.DistinctNames]
      refine ⟨(hp.map Prod.fst).nodup_iff.1 hv.1, ?_⟩
      rw [DistinctNames.members_iff] at hv ⊢
      exact fun m hm => hv.2 m (hp.mem_iff.2 hm)
    · rw [printValueTree, printValueTree, sortNames_eq_of_perm (hp.map Prod.fst)]
      have hlook : ∀ name, (printMembers showDouble ms).lookup name
          = (printMembers showDouble ms').lookup name := by
        intro name
        rw [lookup_printMembers, lookup_printMembers, lookup_perm hp hv.1 name]
      simp only [hlook]
  | element pre post v w _ ih =>
    intro hv
    rw [Value.DistinctNames, DistinctNames.elements_iff] at hv
    obtain ⟨hw, hprint⟩ := ih (hv v (by simp))
    have hfun : printValueTree showDouble v = printValueTree showDouble w := funext hprint
    refine ⟨?_, fun path => ?_⟩
    · rw [Value.DistinctNames, DistinctNames.elements_iff]
      intro x hx
      rcases List.mem_append.1 hx with hx | hx
      · exact hv x (List.mem_append_left _ hx)
      · rcases List.mem_cons.1 hx with hx | hx
        · exact hx ▸ hw
        · exact hv x (List.mem_append_right _ (List.mem_cons_of_mem _ hx))
    · rw [printValueTree, printValueTree, printElements_append, printElements_append,
        printElements, printElements, hfun]
  | member pre post name v w _ ih =>
    intro hv
    rw [Value.DistinctNames, DistinctNames.members_iff] at hv
    obtain ⟨hw, hprint⟩ := ih (hv.2 (name, v) (by simp))
    have hfun : printValueTree showDouble v = printValueTree showDouble w := funext hprint
    refine ⟨?_, fun path => ?_⟩
    · rw [Value.DistinctNames, DistinctNames.members_iff]
      refine ⟨?_, ?_⟩
      · have hkeys : (pre ++ (name, w) :: post).map Prod.fst
            = (pre ++ (name, v) :: post).map Prod.fst := by simp
        rw [hkeys]
        exact hv.1
      · intro x hx
        rcases List.mem_append.1 hx with hx | hx
        · exact hv.2 x (List.mem_append_left _ hx)
        · rcases List.mem_cons.1 hx with hx | hx
          · exact hx ▸ hw
          · exact hv.2 x (List.mem_append_right _ (List.mem_cons_of_mem _ hx))
    · have hkeys : (pre ++ (name, w) :: post).map Prod.fst
          = (pre ++ (name, v) :: post).map Prod.fst := by simp
      have hmem : printMembers showDouble (pre ++ (name, w) :: post)
          = printMembers showDouble (pre ++ (name, v) :: post) := by
        rw [printMembers_append, printMembers_append, printMembers, printMembers, hfun]
      rw [printValueTree, printValueTree, hkeys, hmem]
  | trans u v w _ _ ih1 ih2 =>
    intro hu
    obtain ⟨hv, h1⟩ := ih1 hu
    obtain ⟨hw, h2⟩ := ih2 hv
    exact ⟨hw, fun path => (h1 path).trans (h2 path)⟩

/-- C11: the output of the printer does not depend on the stored order of the
members of objects.  For any two JSON values that differ only in the order in
which the members of their objects, at any depth, are stored, the member names
of each object being distinct, the printer produces the same sequence of lines
at the same path. -/
theorem printValueTree_member_order (showDouble : Float64 → String) (v w : Value)
    (path : String) (h : Reordered v w) (hv : v.DistinctNames) :
    printValueTree showDouble v path = printValueTree showDouble w path :=
  (printValueTree_reordered showDouble h hv).2 path

theorem printValueTree_member_order_witness :
    printValueTree (fun _ => "")
        (.objectValue [("b", .objectValue [("d", .nullValue), ("c", .intValue 1)]),
          ("a", .booleanValue true)]) "."
      = printValueTree (fun _ => "")
        (.objectValue [("a", .booleanValue true),
          ("b", .objectValue [("c", .intValue 1), ("d", .nullValue)])]) "." :=
  printValueTree_member_order (fun _ => "") _ _ "."
    (Reordered.trans _ _ _
      (Reordered.member [] [("a", .booleanValue true)] "b" _ _
        (Reordered.members [("d", .nullValue), ("c", .intValue 1)]
          [("c", .intValue 1), ("d", .nullValue)] (List.Perm.swap _ _ _)))
      (Reordered.members
        [("b", .objectValue [("c", .intValue 1), ("d", .nullValue)]), ("a", .booleanValue true)]
        _ (List.Perm.swap _ _ _)))
    (by simp [Value.DistinctNames, DistinctNames.members])

/-! ## The content of a response (C16) -/

theorem read_some_pending (p_socket : socket) (d : String) (ds : List String)
    (h : p_socket.pending = d :: ds) :
    (read_some p_socket).1.pending = ds ∧ (read_some p_socket).1.ending = p_socket.ending := by
  unfold read_some
  rw [h]
  exact ⟨rfl, rfl⟩

theorem read_until_loop_spec (delim : List Char) :
    ∀ (pending : List String) (p_socket : socket) (buffer : List Char),
      p_socket.pending = pending →
      delim <:+: buffer ++ pending.flatMap String.data →
      ∃ (p_socket' : socket) (buffer' : List Char),
        read_until_loop delim pending p_socket buffer = (p_socket', buffer', none) ∧
        delim <:+: buffer' ∧
        buffer' ++ p_socket'.pending.flatMap String.data
          = buffer ++ pending.flatMap String.data ∧
        p_socket'.ending = p_socket.ending
  | [], p_socket, buffer, hp, hd => by
    simp only [List.flatMap_nil, List.append_nil] at hd
    refine ⟨p_socket, buffer, ?_, hd, ?_, rfl⟩
    · rw [read_until_loop, if_pos hd]
    · rw [hp]
  | d :: ds, p_socket, buffer, hp, hd => by
    by_cases hb : delim <:+: buffer
    · refine ⟨p_socket, buffer, ?_, hb, ?_, rfl⟩
      · rw [read_until_loop, if_pos hb]
      · rw [hp]
    · have hsome := read_some_pending p_socket d ds hp
      have hd' : delim <:+: (buffer ++ d.data) ++ ds.flatMap String.data := by
        simpa only [List.flatMap_cons, List.append_assoc] using hd
      obtain ⟨q, b, hq, hdb, hcat, hend⟩ :=
        read_until_loop_spec delim ds (read_some p_socket).1 (buffer ++ d.data) hsome.1 hd'
      refine ⟨q, b, ?_, hdb, ?_, hend.trans hsome.2⟩
      · rw [read_until_loop, if_neg hb]
        exact hq
      · rw [hcat]
        simp only [List.flatMap_cons, List.append_assoc]

theorem read_all_loop_spec :
    ∀ (pending : List String) (p_socket : socket) (buffer : List Char),
      p_socket.pending = pending →
      ∃ p_socket' : socket,
        read_all_loop pending p_socket buffer
          = (p_socket', buffer ++ pending.flatMap String.data, p_socket.ending)
  | [], p_socket, buffer, _ => by
    refine ⟨(read_some p_socket).1, ?_⟩
    rw [read_all_loop]
    simp
  | d :: ds, p_socket, buffer, hp => by
    have hsome := read_some_pending p_socket d ds hp
    obtain ⟨q, hq⟩ := read_all_loop_spec ds (read_some p_socket).1 (buffer ++ d.data) hsome.1
    refine ⟨q, ?_⟩
    rw [read_all_loop, hq, hsome.2]
    simp only [List.flatMap_cons, List.append_assoc]

theorem prefix_through_newline (line tail buffer remaining : List Char)
    (hline : '\n' ∉ line) (hcat : buffer ++ remaining = line ++ '\n' :: tail)
    (hnl : '\n' ∈ buffer) :
    ∃ rest, buffer = line ++ '\n' :: rest ∧ rest ++ remaining = tail := by
  rcases List.append_eq_append_iff.1 hcat with ⟨a, ha, _⟩ | ⟨c, hc, hc'⟩
  · exact absurd (ha ▸ List.mem_append_left a hnl) hline
  · cases c with
    | nil =>
      rw [List.append_nil] at hc
      exact absurd (hc ▸ hnl) hline
    | cons x c' =>
      rw [List.cons_append, List.cons.injEq] at hc'
      exact ⟨c', by rw [hc, hc'.1], hc'.2.symm⟩

theorem infix_skip_line (pre rest : List Char) (hpre : '\n' ∉ pre)
    (h : ['\n', '\r', '\n'] <:+: pre ++ rest) : ['\n', '\r', '\n'] <:+: rest := by
  induction pre with
  | nil => exact h
  | cons c pre' ih =>
    rw [List.cons_append, List.infix_cons_iff] at h
    rcases h with h | h
    · rw [List.cons_prefix_cons] at h
      exact absurd (h.1 ▸ List.mem_cons_self _ _) hpre
    · exact ih (fun hm => hpre (List.mem_cons_of_mem _ hm)) h

theorem headerBlock_no_blank_line :
    ∀ lines : List (List Char), (∀ line ∈ lines, line ≠ [] ∧ '\n' ∉ line) →
      ¬ ['\r', '\n'] <+: headerBlock lines ++ ['\r'] ∧
      ¬ ['\n', '\r', '\n'] <:+: headerBlock lines ++ ['\r']
  | [], _ => by
    constructor <;> decide
  | line :: lines, hl => by
    obtain ⟨ih1, ih2⟩ := headerBlock_no_blank_line lines
      (fun x hx => hl x (List.mem_cons_of_mem _ hx))
    obtain ⟨hne, hnl⟩ := hl line (List.mem_cons_self _ _)
    have hblock : headerBlock (line :: lines) ++ ['\r']
        = line ++ ('\r' :: '\n' :: (headerBlock lines ++ ['\r'])) := by
      simp [headerBlock, List.append_assoc]
    rw [hblock]
    constructor
    · obtain ⟨c, line', rfl⟩ := List.exists_cons_of_ne_nil hne
      rw [List.cons_append, List.cons_prefix_cons]
      rintro ⟨_, h⟩
      cases line' with
      | nil =>
        rw [List.nil_append, List.cons_prefix_cons] at h
        exact absurd h.1 (by decide)
      | cons c' line'' =>
        rw [List.cons_append, List.cons_prefix_cons] at h
        exact hnl (h.1 ▸ List.mem_cons_of_mem _ (List.mem_cons_self _ _))
    · intro h
      have h1 : ['\n', '\r', '\n'] <:+: '\n' :: (headerBlock lines ++ ['\r']) := by
        apply infix_skip_line (line ++ ['\r']) _ ?_ (by simpa [List.append_assoc] using h)
        intro hm
        rcases List.mem_append.1 hm with hm | hm
        · exact hnl hm
        · exact absurd (List.mem_singleton.1 hm) (by decide)
      rw [List.infix_cons_iff] at h1
      rcases h1 with h1 | h1
      · rw [List.cons_prefix_cons] at h1
        exact ih1 h1.2
      · exact ih2 h1

theorem buffer_through_header (lines : List (List Char)) (body buffer remaining : List Char)
    (hl : ∀ line ∈ lines, line ≠ [] ∧ '\n' ∉ line)
    (hcat : buffer ++ remaining = headerBlock lines ++ '\r' :: '\n' :: body)
    (hdelim : ['\r', '\n', '\r', '\n'] <:+: buffer) :
    ∃ body1, buffer = headerBlock lines ++ '\r' :: '\n' :: body1 ∧ body1 ++ remaining = body := by
  have hno := (headerBlock_no_blank_line lines hl).2
  have hshort : ∀ a, headerBlock lines ++ ['\r'] = buffer ++ a → False := by
    intro a ha
    apply hno
    rw [ha]
    have h3 : ['\n', '\r', '\n'] <:+: ['\r', '\n', '\r', '\n'] := ⟨['\r'], [], rfl⟩
    exact (h3.trans hdelim).trans (List.infix_append' [] buffer a)
  have hcat' : buffer ++ remaining = (headerBlock lines ++ ['\r']) ++ ('\n' :: body) := by
    rw [hcat]
    simp [List.append_assoc]
  rcases List.append_eq_append_iff.1 hcat' with ⟨a, ha, _⟩ | ⟨c, hc, hc'⟩
  · exact absurd (hshort a ha) id
  · cases c with
    | nil =>
      rw [List.append_nil] at hc
      exact absurd (hshort [] (by rw [List.append_nil, hc])) id
    | cons x c' =>
      rw [List.cons_append, List.cons.injEq] at hc'
      refine ⟨c', ?_, hc'.2.symm⟩
      rw [hc, hc'.1]
      simp [List.append_assoc]

theorem length_headerBlock (lines : List (List Char)) :
    lines.length ≤ (headerBlock lines).length := by
  induction lines with
  | nil => exact Nat.le_refl _
  | cons line lines ih =>
    simp only [headerBlock, List.flatMap_cons, List.length_append, List.length_cons,
      List.length_nil] at ih ⊢
    omega

theorem skipHeader_headerBlock (body : List Char) :
    ∀ (lines : List (List Char)) (fuel : Nat), lines.length + 1 ≤ fuel →
      (∀ line ∈ lines, line ≠ [] ∧ '\n' ∉ line) →
      skipHeader fuel ⟨headerBlock lines ++ '\r' :: '\n' :: body, false, false⟩
        = ⟨body, false, false⟩
  | [], fuel, hfuel, _ => by
    obtain ⟨fuel', rfl⟩ : ∃ fuel', fuel = fuel' + 1 := ⟨fuel - 1, by simp at hfuel; omega⟩
    have hline := getline_line ['\r'] body "" (by decide)
    simp only [List.singleton_append] at hline
    simp only [headerBlock, List.flatMap_nil, List.nil_append, skipHeader, hline]
    rfl
  | line :: lines, fuel, hfuel, hl => by
    obtain ⟨fuel', rfl⟩ : ∃ fuel', fuel = fuel' + 1 :=
      ⟨fuel - 1, by simp only [List.length_cons] at hfuel; omega⟩
    obtain ⟨hne, hnl⟩ := hl line (List.mem_cons_self _ _)
    have hbuf : headerBlock (line :: lines) ++ '\r' :: '\n' :: body
        = (line ++ ['\r']) ++ '\n' :: (headerBlock lines ++ '\r' :: '\n' :: body) := by
      simp [headerBlock, List.append_assoc]
    have hmsg : '\n' ∉ line ++ ['\r'] := by
      intro hm
      rcases List.mem_append.1 hm with hm | hm
      · exact hnl hm
      · exact absurd (List.mem_singleton.1 hm) (by decide)
    have hline := getline_line (line ++ ['\r']) (headerBlock lines ++ '\r' :: '\n' :: body) ""
      hmsg
    have hnot : (String.mk (line ++ ['\r']) != "\r") = true := by
      obtain ⟨c, line', rfl⟩ := List.exists_cons_of_ne_nil hne
      have : String.mk (c :: line' ++ ['\r']) ≠ "\r" := by
        intro h
        have h' := congrArg String.length h
        simp [String.length] at h'
      simpa using this
    rw [hbuf, skipHeader]
    simp only [hline, hnot, Bool.not_false, Bool.and_self, if_true]
    exact skipHeader_headerBlock body lines fuel'
      (by simp only [List.length_cons] at hfuel; omega)
      (fun x hx => hl x (List.mem_cons_of_mem _ hx))

theorem StatusLine.no_newline (l : StatusLine) (hl : l.WellFormed) : '\n' ∉ l.text := by
  obtain ⟨_, hvs, _, hbs, _, hds, _, _, hnl⟩ := hl
  intro hm
  simp only [StatusLine.text, List.mem_append] at hm
  rcases hm with ((hm | hm) | hm) | hm
  · exact absurd (hvs _ hm) (by decide)
  · exact (hbs _ hm).2 rfl
  · exact absurd (hds _ hm) (by decide)
  · exact hnl hm

theorem readContent_headerBlock (p_socket : socket) (lines : List (List Char))
    (body rest : List Char) (hlines : lines ≠ [])
    (hl : ∀ line ∈ lines, line ≠ [] ∧ '\n' ∉ line)
    (hcat : rest ++ p_socket.pending.flatMap String.data
      = headerBlock lines ++ '\r' :: '\n' :: body)
    (hend : p_socket.ending = .eof) :
    (readContent p_socket ⟨rest, false, false⟩).2 = .ok (String.mk body) := by
  have hdelim : "\r\n\r\n".data <:+: rest ++ p_socket.pending.flatMap String.data := by
    rw [hcat, ← List.dropLast_append_getLast hlines]
    refine ⟨headerBlock lines.dropLast ++ lines.getLast hlines, body, ?_⟩
    simp [headerBlock, List.append_assoc]
  obtain ⟨q, b, hq, hdb, hcat2, hend2⟩ :=
    read_until_loop_spec "\r\n\r\n".data p_socket.pending p_socket rest rfl hdelim
  obtain ⟨body1, hb, hbody⟩ := buffer_through_header lines body b
    (q.pending.flatMap String.data) hl (hcat2.trans hcat) hdb
  subst hb
  have hskip := skipHeader_headerBlock body1 lines
    ((headerBlock lines ++ '\r' :: '\n' :: body1).length + 1)
    (by
      have := length_headerBlock lines
      rw [List.length_append]
      omega) hl
  obtain ⟨q', hq'⟩ := read_all_loop_spec q.pending q [] rfl
  simp only [readContent, read_until, hq, hq']
  rw [hskip, hend2, hend]
  simp only [bne_self_eq_false, Bool.false_eq_true, if_false, List.nil_append, hbody]

theorem sendRequest_returns_body (m_httpagent : String) (p_socket : socket)
    (p_query p_server : String) (l : StatusLine) (lines : List (List Char))
    (body : List Char) (hl : l.WellFormed) (hcr : ∃ m, l.message = m ++ ['\r'])
    (hver : "HTTP/".data <+: l.version) (hcode : throwHTTPError l.code = .ok ())
    (hlines : lines ≠ []) (hh : ∀ line ∈ lines, line ≠ [] ∧ '\n' ∉ line)
    (hresp : p_socket.pending.flatMap String.data
      = l.text ++ '\n' :: (headerBlock lines ++ '\r' :: '\n' :: body))
    (hend : p_socket.ending = .eof) :
    (sendRequest m_httpagent p_socket p_query p_server).2 = .ok (String.mk body) := by
  obtain ⟨m, hm⟩ := hcr
  have hdelim : "\r\n".data <:+: [] ++ p_socket.pending.flatMap String.data := by
    rw [List.nil_append, hresp]
    refine ⟨l.version ++ l.blank ++ l.digits ++ m,
      headerBlock lines ++ '\r' :: '\n' :: body, ?_⟩
    simp [StatusLine.text, hm, List.append_assoc]
  obtain ⟨q, b, hq, hdb, hcat, hend1⟩ :=
    read_until_loop_spec "\r\n".data p_socket.pending
      { p_socket with sent := p_socket.sent ++ requestText m_httpagent p_query p_server }
      [] rfl hdelim
  have hnl : '\n' ∈ b := hdb.subset (by decide)
  rw [List.nil_append, hresp] at hcat
  obtain ⟨rest, hb, hrest⟩ := prefix_through_newline l.text _ b _ (l.no_newline hl) hcat hnl
  have hread : read_until
      { p_socket with sent := p_socket.sent ++ requestText m_httpagent p_query p_server }
      [] "\r\n" = (q, l.text ++ '\n' :: rest, none) := by
    rw [← hb]
    exact hq
  rw [sendRequest_wellFormed m_httpagent p_socket p_query p_server q l rest hl hread,
    if_pos hver, hcode]
  exact readContent_headerBlock q lines body rest hlines hh hrest (hend1.trans hend)

theorem sendRequest_returns_body_example :
    (sendRequest "agent"
        (socket.serving ["HTTP/1.1 200 OK\r", "\nA: b\r\nC: d\r\n\r", "\nbo", "dy"])
        "/q" "host").2 = .ok "body" :=
  sendRequest_returns_body "agent"
    (socket.serving ["HTTP/1.1 200 OK\r", "\nA: b\r\nC: d\r\n\r", "\nbo", "dy"]) "/q" "host"
    ⟨"HTTP/1.1".data, " ".data, "200".data, " OK\r".data⟩ ["A: b".data, "C: d".data]
    "body".data (by decide) ⟨" OK".data, rfl⟩ (by decide) rfl (by decide) (by decide) rfl rfl

/-- C16: a response with no header lines is not read to its body.  For the
response `HTTP/1.1 200 OK`, blank line, `body`, the read of the status line
consumes the line end of the status line, the read for the end of the header
then finds no blank line in what is left, reads to the end of the stream and
throws `boost::system::system_error`, also when the bytes are split over
several reads.  With one header line the same body is returned, also when the
bytes are split over several reads and when the body is empty. -/
theorem sendRequest_no_header_lines (m_httpagent p_query p_server : String) :
    (sendRequest m_httpagent (socket.serving ["HTTP/1.1 200 OK\r\n\r\nbody"])
        p_query p_server).2 = .error (.system_error .eof) ∧
    (sendRequest m_httpagent (socket.serving ["HTTP/1.1 200 OK\r\n", "\r\n", "body"])
        p_query p_server).2 = .error (.system_error .eof) ∧
    (sendRequest m_httpagent (socket.serving ["HTTP/1.1 200 OK\r\nA: b\r\n\r\nbody"])
        p_query p_server).2 = .ok "body" ∧
    (sendRequest m_httpagent
        (socket.serving ["HTTP/1.1 200 OK\r", "\nA: b\r\n\r", "\nbo", "dy"])
        p_query p_server).2 = .ok "body" ∧
    (sendRequest m_httpagent (socket.serving ["HTTP/1.1 200 OK\r\nA: b\r\n\r\n"])
        p_query p_server).2 = .ok "" :=
  ⟨rfl, rfl, rfl, rfl, rfl⟩

/-! ## The frame of the setters (C23) -/

theorem SetterCall.effect_frame (showFloat : Float32 → String) (c : SetterCall L)
    (s : searchparameter L) :
    (c.effect showFloat s).m_use = s.m_use ||| 2 ^ c.field ∧
    (c.field ≠ 0 → (c.effect showFloat s).m_lang = s.m_lang) ∧
    (c.field ≠ 1 → (c.effect showFloat s).m_resulttype = s.m_resulttype) ∧
    (c.field ≠ 2 → (c.effect showFloat s).m_until = s.m_until) ∧
    (c.field ≠ 3 → (c.effect showFloat s).m_geo = s.m_geo) ∧
    (c.field ≠ 4 → (c.effect showFloat s).m_resultcount = s.m_resultcount) := by
  cases c <;>
    refine ⟨rfl, fun h => ?_, fun h => ?_, fun h => ?_, fun h => ?_, fun h => ?_⟩ <;>
    first | rfl | exact absurd rfl h

/-- C23: each setter of the parameter set changes only its own field.  A
successful call sets its own presence bit and no other bit of `m_use`, so it
clears no presence bit and leaves the presence of every other field as it was,
and it leaves the stored value of every other field unchanged; a failing call
of `setResultCount` throws before it writes and leaves the whole parameter set
unchanged. -/
theorem setter_frame (showFloat : Float32 → String) :
    (∀ (c : SetterCall L) (s s' : searchparameter L), c.apply showFloat s = .ok s' →
      s'.m_use = s.m_use ||| 2 ^ c.field ∧
      s'.m_use &&& 2 ^ c.field ≠ 0 ∧
      (∀ k, s.m_use &&& 2 ^ k ≠ 0 → s'.m_use &&& 2 ^ k ≠ 0) ∧
      (∀ k, k ≠ c.field → (s'.m_use &&& 2 ^ k ≠ 0 ↔ s.m_use &&& 2 ^ k ≠ 0)) ∧
      (c.field ≠ 0 → s'.m_lang = s.m_lang) ∧
      (c.field ≠ 1 → s'.m_resulttype = s.m_resulttype) ∧
      (c.field ≠ 2 → s'.m_until = s.m_until) ∧
      (c.field ≠ 3 → s'.m_geo = s.m_geo) ∧
      (c.field ≠ 4 → s'.m_resultcount = s.m_resultcount)) ∧
    (∀ (s : searchparameter L) (p_num : Nat), (p_num = 0 ∨ p_num > 1500) →
      setResultCount s p_num
        = .error (.runtime "result number must be in the range [1,1500]") ∧
      (SetterCall.resultCount p_num).run showFloat s = s) := by
  constructor
  · intro c s s' h
    obtain ⟨hs', _⟩ := SetterCall.apply_eq_effect showFloat c h
    obtain ⟨huse, hrest⟩ := SetterCall.effect_frame showFloat c s
    rw [hs']
    refine ⟨huse, ?_, ?_, ?_, hrest⟩
    · rw [huse]
      exact (flag_or s.m_use c.field c.field).2 (Or.inr rfl)
    · intro k hk
      rw [huse]
      exact (flag_or s.m_use c.field k).2 (Or.inl hk)
    · intro k hk
      rw [huse]
      exact flag_keep s.m_use c.field k (Ne.symm hk)
  · intro s p_num hn
    have herr := setResultCount_error s p_num hn
    refine ⟨herr, ?_⟩
    simp only [SetterCall.run, SetterCall.apply, herr]

theorem setter_frame_witness :
    (setGeoPosition (fun _ => "1") (setLanguage (searchparameter.new Language.sample) true)
        ⟨⟨0⟩, ⟨0⟩, ⟨0⟩, miles⟩).m_use = 1 ||| 2 ^ 3 ∧
    (setGeoPosition (fun _ => "1") (setLanguage (searchparameter.new Language.sample) true)
        ⟨⟨0⟩, ⟨0⟩, ⟨0⟩, miles⟩).m_lang = true :=
  have h := (@setter_frame Language.sample (fun _ => "1")).1
    (SetterCall.geoPosition ⟨⟨0⟩, ⟨0⟩, ⟨0⟩, miles⟩)
    (setLanguage (searchparameter.new Language.sample) true) _ rfl
  ⟨h.1, h.2.2.2.2.1 (by decide)⟩

/-! ## One line for each node (C22) -/

theorem sortedMembers_perm (members : List (String × Value))
    (hnames : (members.map Prod.fst).Nodup) :
    ((sortNames (members.map Prod.fst)).filterMap
      fun name => (members.lookup name).map fun v => (name, v)).Perm members := by
  refine ((sortNames_perm _).filterMap _).trans ?_
  rw [List.filterMap_map]
  have hcongr : List.filterMap
      ((fun name => (members.lookup name).map fun v => (name, v)) ∘ Prod.fst) members
        = List.filterMap some members := by
    apply List.filterMap_congr
    rintro ⟨k, v⟩ hkv
    simp only [Function.comp, lookup_of_mem hnames hkv, Option.map_some']
  rw [hcongr, List.filterMap_some]

theorem printValueTree_objectValue (showDouble : Float64 → String)
    (members : List (String × Value)) (path : String)
    (hnames : (members.map Prod.fst).Nodup) :
    ∃ sorted : List (String × Value), sorted.Perm members ∧
      sorted.Pairwise (fun a b => a.1.data < b.1.data) ∧
      printValueTree showDouble (.objectValue members) path =
        (path ++ "=\x7b\x7d") ::
          sorted.flatMap fun m =>
            printValueTree showDouble m.2 (path ++ pathSuffix path ++ m.1) := by
  refine ⟨_, sortedMembers_perm members hnames, ?_, ?_⟩
  · refine List.Pairwise.filterMap _ ?_ (sortNames_pairwise _ hnames)
    intro a a' haa' b hb b' hb'
    simp only [Option.mem_def, Option.map_eq_some'] at hb hb'
    obtain ⟨_, _, rfl⟩ := hb
    obtain ⟨_, _, rfl⟩ := hb'
    exact haa'
  · rw [printValueTree]
    rw [flatMap_members showDouble members path _
      (fun name hname => (sortNames_perm _).mem_iff.1 hname)]

theorem nodesOfMembers_eq :
    ∀ members : List (String × Value),
      Value.nodesOfMembers members = (members.map fun m => m.2.nodes).sum
  | [] => rfl
  | (k, v) :: rest => by
    rw [Value.nodesOfMembers, nodesOfMembers_eq rest]
    rfl

theorem length_flatMap_members (showDouble : Float64 → String)
    (paths : String × Value → String) :
    ∀ members : List (String × Value),
      (∀ m ∈ members, ∀ path, (printValueTree showDouble m.2 path).length = m.2.nodes) →
      (members.flatMap fun m => printValueTree showDouble m.2 (paths m)).length
        = (members.map fun m => m.2.nodes).sum
  | [], _ => rfl
  | m :: rest, h => by
    rw [List.flatMap_cons, List.length_append, List.map_cons, List.sum_cons,
      h m (List.mem_cons_self _ _),
      length_flatMap_members showDouble paths rest
        (fun x hx => h x (List.mem_cons_of_mem _ hx))]

mutual

theorem length_printValueTree (showDouble : Float64 → String) :
    ∀ (v : Value) (path : String), v.DistinctNames →
      (printValueTree showDouble v path).length = v.nodes
  | .nullValue, _, _ => rfl
  | .intValue _, _, _ => rfl
  | .uintValue _, _, _ => rfl
  | .realValue _, _, _ => rfl
  | .stringValue _, _, _ => rfl
  | .booleanValue _, _, _ => rfl
  | .arrayValue elements, path, hv => by
    rw [Value.DistinctNames] at hv
    rw [printValueTree, List.length_cons, length_printElements showDouble elements 0 path hv,
      Value.nodes, Nat.add_comm]
  | .objectValue members, path, hv => by
    rw [Value.DistinctNames] at hv
    obtain ⟨sorted, hperm, _, hprint⟩ :=
      printValueTree_objectValue showDouble members path hv.1
    have hmem := length_printMembers showDouble members hv.2
    rw [hprint, List.length_cons,
      length_flatMap_members showDouble _ sorted
        (fun m hm => hmem m (hperm.mem_iff.1 hm)),
      (hperm.map fun m => m.2.nodes).sum_eq, Value.nodes, nodesOfMembers_eq, Nat.add_comm]

theorem length_printElements (showDouble : Float64 → String) :
    ∀ (elements : List Value) (index : Nat) (path : String),
      DistinctNames.elements elements →
      (printElements showDouble elements index path).length
        = Value.nodesOfElements elements
  | [], _, _, _ => rfl
  | element :: rest, index, path, hv => by
    rw [DistinctNames.elements] at hv
    rw [printElements, List.length_append, length_printValueTree showDouble element _ hv.1,
      length_printElements showDouble rest (index + 1) path hv.2, Value.nodesOfElements]

theorem length_printMembers (showDouble : Float64 → String) :
    ∀ members : List (String × Value), DistinctNames.members members →
      ∀ m ∈ members, ∀ path, (printValueTree showDouble m.2 path).length = m.2.nodes
  | [], _, m, hm, _ => by simp at hm
  | (k, v) :: rest, hv, m, hm, path => by
    rw [DistinctNames.members] at hv
    rcases List.mem_cons.1 hm with rfl | hm
    · exact length_printValueTree showDouble v path hv.1
    · exact length_printMembers showDouble rest hv.2 m hm path

end

theorem mem_of_lookup {name : String} {v : Value} :
    ∀ {members : List (String × Value)}, members.lookup name = some v → (name, v) ∈ members
  | [], h => by simp at h
  | (k, w) :: rest, h => by
    rw [List.lookup_cons] at h
    by_cases hk : name = k
    · subst hk
      simp only [beq_self_eq_true, Option.some.injEq] at h
      subst h
      exact List.mem_cons_self _ _
    · have hb : (name == k) = false := beq_eq_false_iff_ne.2 hk
      rw [hb] at h
      exact List.mem_cons_of_mem _ (mem_of_lookup h)

mutual

theorem prefix_printValueTree (showDouble : Float64 → String) :
    ∀ (v : Value) (path line : String), line ∈ printValueTree showDouble v path →
      ∃ rest, line = path ++ rest
  | .nullValue, _, line, h => by
    rw [printValueTree, List.mem_singleton] at h
    exact ⟨_, h⟩
  | .intValue _, _, line, h => by
    rw [printValueTree, List.mem_singleton] at h
    exact ⟨_, h.trans (String.append_assoc _ _ _)⟩
  | .uintValue _, _, line, h => by
    rw [printValueTree, List.mem_singleton] at h
    exact ⟨_, h.trans (String.append_assoc _ _ _)⟩
  | .realValue _, _, line, h => by
    rw [printValueTree, List.mem_singleton] at h
    exact ⟨_, h.trans (String.append_assoc _ _ _)⟩
  | .stringValue asString, path, line, h => by
    rw [printValueTree, List.mem_singleton] at h
    exact ⟨"=\"" ++ (asString ++ "\""), h.trans (by simp only [String.append_assoc])⟩
  | .booleanValue _, _, line, h => by
    rw [printValueTree, List.mem_singleton] at h
    exact ⟨_, h.trans (String.append_assoc _ _ _)⟩
  | .arrayValue elements, path, line, h => by
    rw [printValueTree, List.mem_cons] at h
    rcases h with h | h
    · exact ⟨_, h⟩
    · exact prefix_printElements showDouble elements 0 path line h
  | .objectValue members, path, line, h => by
    rw [printValueTree, List.mem_cons] at h
    rcases h with h | h
    · exact ⟨_, h⟩
    · obtain ⟨name, _, hline⟩ := List.mem_flatMap.1 h
      rw [lookup_printMembers] at hline
      cases hl : members.lookup name with
      | none =>
        rw [hl] at hline
        simp only [Option.map_none', List.mem_singleton] at hline
        exact ⟨pathSuffix path ++ (name ++ "=null"),
          hline.trans (by simp only [String.append_assoc])⟩
      | some v =>
        rw [hl] at hline
        simp only [Option.map_some'] at hline
        obtain ⟨rest, hrest⟩ :=
          prefix_printMembers showDouble members (name, v) (mem_of_lookup hl) _ line hline
        exact ⟨pathSuffix path ++ (name ++ rest),
          hrest.trans (by simp only [String.append_assoc])⟩

theorem prefix_printElements (showDouble : Float64 → String) :
    ∀ (elements : List Value) (index : Nat) (path line : String),
      line ∈ printElements showDouble elements index path → ∃ rest, line = path ++ rest
  | [], _, _, line, h => by
    rw [printElements] at h
    exact absurd h (List.not_mem_nil _)
  | element :: rest, index, path, line, h => by
    rw [printElements, List.mem_append] at h
    rcases h with h | h
    · obtain ⟨r, hr⟩ := prefix_printValueTree showDouble element _ line h
      exact ⟨_, hr.trans (String.append_assoc _ _ _)⟩
    · exact prefix_printElements showDouble rest (index + 1) path line h

theorem prefix_printMembers (showDouble : Float64 → String) :
    ∀ (members : List (String × Value)) (m : String × Value), m ∈ members →
      ∀ path line : String, line ∈ printValueTree showDouble m.2 path →
        ∃ rest, line = path ++ rest
  | [], m, hm, _, _, _ => by simp at hm
  | (k, v) :: rest, m, hm, path, line, h => by
    rcases List.mem_cons.1 hm with rfl | hm
    · exact prefix_printValueTree showDouble v path line h
    · exact prefix_printMembers showDouble rest m hm path line h

end

/-! ## The lines of the output -/

theorem linesOf_ne_nil : ∀ text : List Char, text ≠ [] → linesOf text ≠ []
  | [], h => absurd rfl h
  | c :: rest, _ => by
    rw [linesOf]
    split
    · exact List.cons_ne_nil _ _
    · split <;> exact List.cons_ne_nil _ _

theorem linesOf_cons {c : Char} (hc : c ≠ '\n') (line : List Char) (others : List (List Char))
    (rest : List Char) (h : linesOf rest = line :: others) :
    linesOf (c :: rest) = (c :: line) :: others := by
  rw [linesOf, if_neg hc, h]

theorem linesOf_append_lineFeed (entry rest : List Char) :
    linesOf (entry ++ '\n' :: rest) = linesOf (entry ++ ['\n']) ++ linesOf rest := by
  induction entry with
  | nil => simp only [List.nil_append, linesOf, if_true, List.singleton_append]
  | cons c entry ih =>
    obtain ⟨line, others, h⟩ := List.exists_cons_of_ne_nil
      (linesOf_ne_nil (entry ++ ['\n']) (by simp))
    by_cases hc : c = '\n'
    · rw [List.cons_append, List.cons_append, linesOf, if_pos hc, linesOf, if_pos hc, ih]
      rfl
    · rw [List.cons_append, List.cons_append, linesOf_cons hc line others _ h,
        linesOf_cons hc line (others ++ linesOf rest) _ (by rw [ih, h, List.cons_append])]
      rfl

theorem linesOf_entry (entry : List Char) (h : '\n' ∉ entry) :
    linesOf (entry ++ ['\n']) = [entry] := by
  induction entry with
  | nil => simp only [List.nil_append, linesOf, if_true]
  | cons c entry ih =>
    have hc : c ≠ '\n' := fun hc => h (hc ▸ List.mem_cons_self _ _)
    exact linesOf_cons hc _ _ _ (ih (fun h' => h (List.mem_cons_of_mem _ h')))

theorem length_linesOf_entry (entry : List Char) :
    1 ≤ (linesOf (entry ++ ['\n'])).length :=
  List.length_pos.2 (linesOf_ne_nil _ (by simp))

theorem length_linesOf_lineFeed (entry : List Char) (h : '\n' ∈ entry) :
    2 ≤ (linesOf (entry ++ ['\n'])).length := by
  induction entry with
  | nil => exact absurd h (List.not_mem_nil _)
  | cons c entry ih =>
    by_cases hc : c = '\n'
    · rw [List.cons_append, linesOf, if_pos hc, List.length_cons]
      have := length_linesOf_entry entry
      omega
    · obtain ⟨line, others, h'⟩ := List.exists_cons_of_ne_nil
        (linesOf_ne_nil (entry ++ ['\n']) (by simp))
      have hmem : '\n' ∈ entry := by
        rcases List.mem_cons.1 h with h | h
        · exact absurd h.symm hc
        · exact h
      have := ih hmem
      rw [List.cons_append, linesOf_cons hc line others _ h']
      rw [h'] at this
      exact this

theorem linesOf_stdoutText (entries : List String) :
    linesOf (stdoutText entries) = entries.flatMap fun entry => linesOf (entry.data ++ ['\n']) := by
  induction entries with
  | nil => rfl
  | cons entry rest ih => rw [stdoutText, linesOf_append_lineFeed, ih, List.flatMap_cons]

theorem linesOf_stdoutText_of_free (entries : List String)
    (h : ∀ entry ∈ entries, '\n' ∉ entry.data) :
    linesOf (stdoutText entries) = entries.map String.data := by
  induction entries with
  | nil => rfl
  | cons entry rest ih =>
    rw [stdoutText, linesOf_append_lineFeed, linesOf_entry _ (h entry (List.mem_cons_self _ _)),
      ih (fun e he => h e (List.mem_cons_of_mem _ he))]
    rfl

theorem length_linesOf_stdoutText (entries : List String) :
    entries.length ≤ (linesOf (stdoutText entries)).length ∧
    ((∃ entry ∈ entries, '\n' ∈ entry.data) →
      entries.length < (linesOf (stdoutText entries)).length) := by
  induction entries with
  | nil => exact ⟨Nat.le_refl _, fun ⟨_, h, _⟩ => absurd h (List.not_mem_nil _)⟩
  | cons entry rest ih =>
    rw [stdoutText, linesOf_append_lineFeed, List.length_append, List.length_cons]
    have h1 := length_linesOf_entry entry.data
    refine ⟨by omega, ?_⟩
    rintro ⟨e, he, hlf⟩
    rcases List.mem_cons.1 he with rfl | he
    · have := length_linesOf_lineFeed _ hlf
      omega
    · have := ih.2 ⟨e, he, hlf⟩
      omega

theorem digitChar_ne_lineFeed (n : Nat) : Nat.digitChar (n % 10) ≠ '\n' := by
  have h : n % 10 < 10 := Nat.mod_lt _ (by decide)
  generalize n % 10 = k at h
  interval_cases k <;> decide

theorem toDigitsCore_free : ∀ (fuel n : Nat) (ds : List Char), '\n' ∉ ds →
    '\n' ∉ Nat.toDigitsCore 10 fuel n ds
  | 0, _, ds, h => h
  | fuel + 1, n, ds, h => by
    have hd : '\n' ∉ Nat.digitChar (n % 10) :: ds := by
      intro hm
      rcases List.mem_cons.1 hm with hm | hm
      · exact digitChar_ne_lineFeed n hm.symm
      · exact h hm
    rw [Nat.toDigitsCore]
    split
    · exact hd
    · exact toDigitsCore_free fuel _ _ hd

theorem toString_nat_free (n : Nat) : '\n' ∉ (toString n).data :=
  toDigitsCore_free _ _ _ (List.not_mem_nil _)

theorem toString_int_free (i : Int) : '\n' ∉ (toString i).data := by
  cases i with
  | ofNat n => exact toString_nat_free n
  | negSucc n =>
    show '\n' ∉ ("-" ++ toString (n + 1)).data
    rw [String.data_append]
    intro h
    rcases List.mem_append.1 h with h | h
    · exact absurd h (by decide)
    · exact toString_nat_free _ h

/-! ## Line feeds in the texts printed -/

theorem free_append {a b : String} (ha : '\n' ∉ a.data) (hb : '\n' ∉ b.data) :
    '\n' ∉ (a ++ b).data := by
  rw [String.data_append]
  intro h
  rcases List.mem_append.1 h with h | h
  · exact ha h
  · exact hb h

theorem pathSuffix_eq (path : String) : pathSuffix path = "" ∨ pathSuffix path = "." := by
  unfold pathSuffix
  split
  · exact Or.inl rfl
  · exact Or.inr rfl

theorem pathSuffix_free (path : String) : '\n' ∉ (pathSuffix path).data := by
  rcases pathSuffix_eq path with h | h <;> rw [h] <;> decide

theorem printValueTree_ne_nil (showDouble : Float64 → String) (v : Value) (path : String) :
    printValueTree showDouble v path ≠ [] := by
  cases v <;> rw [printValueTree] <;> exact List.cons_ne_nil _ _

theorem lineFeedFree_members_iff :
    ∀ members : List (String × Value),
      LineFeedFree.members members ↔ ∀ m ∈ members, '\n' ∉ m.1.data ∧ m.2.LineFeedFree
  | [] => by simp [LineFeedFree.members]
  | (k, v) :: ms => by
    rw [LineFeedFree.members, lineFeedFree_members_iff ms]
    simp [and_assoc]

mutual

theorem free_printValueTree (showDouble : Float64 → String)
    (hshow : ∀ d, '\n' ∉ (showDouble d).data) :
    ∀ (v : Value) (path : String), v.DistinctNames → v.LineFeedFree → '\n' ∉ path.data →
      ∀ entry ∈ printValueTree showDouble v path, '\n' ∉ entry.data
  | .nullValue, _, _, _, hp, entry, h => by
    rw [printValueTree, List.mem_singleton] at h
    rw [h]
    exact free_append hp (by decide)
  | .intValue asInt, _, _, _, hp, entry, h => by
    rw [printValueTree, List.mem_singleton] at h
    rw [h]
    exact free_append (free_append hp (by decide)) (toString_int_free asInt)
  | .uintValue asUInt, _, _, _, hp, entry, h => by
    rw [printValueTree, List.mem_singleton] at h
    rw [h]
    exact free_append (free_append hp (by decide)) (toString_nat_free asUInt)
  | .realValue asDouble, _, _, _, hp, entry, h => by
    rw [printValueTree, List.mem_singleton] at h
    rw [h]
    exact free_append (free_append hp (by decide)) (hshow asDouble)
  | .stringValue asString, _, _, hf, hp, entry, h => by
    rw [printValueTree, List.mem_singleton] at h
    rw [Value.LineFeedFree] at hf
    rw [h]
    exact free_append (free_append (free_append hp (by decide)) hf) (by decide)
  | .booleanValue asBool, _, _, _, hp, entry, h => by
    rw [printValueTree, List.mem_singleton] at h
    rw [h]
    refine free_append (free_append hp (by decide)) ?_
    cases asBool <;> decide
  | .arrayValue elements, path, hv, hf, hp, entry, h => by
    rw [Value.DistinctNames] at hv
    rw [Value.LineFeedFree] at hf
    rw [printValueTree, List.mem_cons] at h
    rcases h with h | h
    · rw [h]
      exact free_append hp (by decide)
    · exact free_printElements showDouble hshow elements 0 path hv hf hp entry h
  | .objectValue members, path, hv, hf, hp, entry, h => by
    rw [Value.DistinctNames] at hv
    rw [Value.LineFeedFree] at hf
    obtain ⟨sorted, hperm, _, hprint⟩ :=
      printValueTree_objectValue showDouble members path hv.1
    rw [hprint, List.mem_cons] at h
    rcases h with h | h
    · rw [h]
      exact free_append hp (by decide)
    · obtain ⟨m, hm, hentry⟩ := List.mem_flatMap.1 h
      have hmem := free_printMembers showDouble hshow members hv.2 hf m (hperm.mem_iff.1 hm)
      exact hmem.2 _ (free_append (free_append hp (pathSuffix_free path)) hmem.1) entry hentry

theorem free_printElements (showDouble : Float64 → String)
    (hshow : ∀ d, '\n' ∉ (showDouble d).data) :
    ∀ (elements : List Value) (index : Nat) (path : String),
      DistinctNames.elements elements → LineFeedFree.elements elements → '\n' ∉ path.data →
      ∀ entry ∈ printElements showDouble elements index path, '\n' ∉ entry.data
  | [], _, _, _, _, _, entry, h => by
    rw [printElements] at h
    exact absurd h (List.not_mem_nil _)
  | element :: rest, index, path, hv, hf, hp, entry, h => by
    rw [DistinctNames.elements] at hv
    rw [LineFeedFree.elements] at hf
    rw [printElements, List.mem_append] at h
    rcases h with h | h
    · refine free_printValueTree showDouble hshow element _ hv.1 hf.1 ?_ entry h
      exact free_append hp
        (free_append (free_append (by decide) (toString_nat_free index)) (by decide))
    · exact free_printElements showDouble hshow rest (index + 1) path hv.2 hf.2 hp entry h

theorem free_printMembers (showDouble : Float64 → String)
    (hshow : ∀ d, '\n' ∉ (showDouble d).data) :
    ∀ members : List (String × Value), DistinctNames.members members →
      LineFeedFree.members members → ∀ m ∈ members, '\n' ∉ m.1.data ∧
        ∀ path : String, '\n' ∉ path.data →
          ∀ entry ∈ printValueTree showDouble m.2 path, '\n' ∉ entry.data
  | [], _, _, m, hm => by simp at hm
  | (k, v) :: rest, hv, hf, m, hm => by
    rw [DistinctNames.members] at hv
    rw [LineFeedFree.members] at hf
    rcases List.mem_cons.1 hm with rfl | hm
    · exact ⟨hf.1, fun path hp => free_printValueTree showDouble hshow v path hv.1 hf.2.1 hp⟩
    · exact free_printMembers showDouble hshow rest hv.2 hf.2.2 m hm

end

theorem lineFeed_of_path (showDouble : Float64 → String) (v : Value) (path : String)
    (hp : '\n' ∈ path.data) :
    ∃ entry ∈ printValueTree showDouble v path, '\n' ∈ entry.data := by
  obtain ⟨entry, hentry⟩ := List.exists_mem_of_ne_nil _ (printValueTree_ne_nil showDouble v path)
  obtain ⟨rest, hrest⟩ := prefix_printValueTree showDouble v path entry hentry
  refine ⟨entry, hentry, ?_⟩
  rw [hrest, String.data_append]
  exact List.mem_append_left _ hp

mutual

theorem lineFeed_printValueTree (showDouble : Float64 → String) :
    ∀ (v : Value) (path : String), v.DistinctNames → ¬ v.LineFeedFree →
      ∃ entry ∈ printValueTree showDouble v path, '\n' ∈ entry.data
  | .nullValue, _, _, hf => absurd (by simp [Value.LineFeedFree]) hf
  | .intValue _, _, _, hf => absurd (by simp [Value.LineFeedFree]) hf
  | .uintValue _, _, _, hf => absurd (by simp [Value.LineFeedFree]) hf
  | .realValue _, _, _, hf => absurd (by simp [Value.LineFeedFree]) hf
  | .booleanValue _, _, _, hf => absurd (by simp [Value.LineFeedFree]) hf
  | .stringValue asString, path, _, hf => by
    rw [Value.LineFeedFree, not_not] at hf
    refine ⟨_, by rw [printValueTree]; exact List.mem_singleton_self _, ?_⟩
    simp only [String.data_append, List.mem_append]
    exact Or.inl (Or.inr hf)
  | .arrayValue elements, path, hv, hf => by
    rw [Value.DistinctNames] at hv
    rw [Value.LineFeedFree] at hf
    obtain ⟨entry, hentry, hlf⟩ := lineFeed_printElements showDouble elements 0 path hv hf
    exact ⟨entry, by rw [printValueTree]; exact List.mem_cons_of_mem _ hentry, hlf⟩
  | .objectValue members, path, hv, hf => by
    rw [Value.DistinctNames] at hv
    rw [Value.LineFeedFree] at hf
    obtain ⟨sorted, hperm, _, hprint⟩ :=
      printValueTree_objectValue showDouble members path hv.1
    obtain ⟨m, hm, hmem⟩ := lineFeed_printMembers showDouble members hv.2 hf
    obtain ⟨entry, hentry, hlf⟩ := hmem (path ++ pathSuffix path)
    refine ⟨entry, ?_, hlf⟩
    rw [hprint]
    exact List.mem_cons_of_mem _ (List.mem_flatMap.2 ⟨m, hperm.mem_iff.2 hm, hentry⟩)

theorem lineFeed_printElements (showDouble : Float64 → String) :
    ∀ (elements : List Value) (index : Nat) (path : String),
      DistinctNames.elements elements → ¬ LineFeedFree.elements elements →
      ∃ entry ∈ printElements showDouble elements index path, '\n' ∈ entry.data
  | [], _, _, _, hf => absurd (by rw [LineFeedFree.elements]; trivial) hf
  | element :: rest, index, path, hv, hf => by
    rw [DistinctNames.elements] at hv
    rw [LineFeedFree.elements] at hf
    by_cases he : element.LineFeedFree
    · obtain ⟨entry, hentry, hlf⟩ := lineFeed_printElements showDouble rest (index + 1) path
        hv.2 (fun h => hf ⟨he, h⟩)
      exact ⟨entry, by rw [printElements]; exact List.mem_append_right _ hentry, hlf⟩
    · obtain ⟨entry, hentry, hlf⟩ := lineFeed_printValueTree showDouble element
        (path ++ ("[" ++ toString index ++ "]")) hv.1 he
      exact ⟨entry, by rw [printElements]; exact List.mem_append_left _ hentry, hlf⟩

theorem lineFeed_printMembers (showDouble : Float64 → String) :
    ∀ members : List (String × Value), DistinctNames.members members →
      ¬ LineFeedFree.members members →
      ∃ m ∈ members, ∀ path : String,
        ∃ entry ∈ printValueTree showDouble m.2 (path ++ m.1), '\n' ∈ entry.data
  | [], _, hf => absurd (by rw [LineFeedFree.members]; trivial) hf
  | (k, v) :: rest, hv, hf => by
    rw [DistinctNames.members] at hv
    rw [LineFeedFree.members] at hf
    by_cases hk : '\n' ∈ k.data
    · refine ⟨(k, v), List.mem_cons_self _ _, fun path => ?_⟩
      refine lineFeed_of_path showDouble v _ ?_
      rw [String.data_append]
      exact List.mem_append_right _ hk
    · by_cases hm : v.LineFeedFree
      · obtain ⟨m, hmem, h⟩ := lineFeed_printMembers showDouble rest hv.2
          (fun h => hf ⟨hk, hm, h⟩)
        exact ⟨m, List.mem_cons_of_mem _ hmem, h⟩
      · exact ⟨(k, v), List.mem_cons_self _ _, fun path =>
          lineFeed_printValueTree showDouble v _ hv.1 hm⟩

end

/-! ## One line for each node (C22) -/

/-- C22, as stated, fails for a string value that holds a line feed: the string
`a`, line feed, `b` is one node, yet the printer writes it as it is, which gives
two lines on the output, and the second line does not begin with the path. -/
theorem printedLines_line_feed :
    (Value.stringValue "a\nb").DistinctNames ∧ (Value.stringValue "a\nb").nodes = 1 ∧
    printedLines (fun _ => "") (.stringValue "a\nb") "." = [".=\"a".data, "b\"".data] ∧
    ¬ ".".data <+: "b\"".data :=
  ⟨by simp [Value.DistinctNames], by decide, by decide, by decide⟩

/-- C22, amended: the printer writes exactly one line for each node of a tree
that holds no line feed.  For every JSON value in which the member names of each
object are distinct, and every non-empty path: if no string value, no member
name and not the path holds a line feed, the number of lines on the output
equals the number of nodes of the value, scalars, arrays and objects each
counted once, and every line begins with the path the printer was called with;
if one of them holds a line feed, there are more lines than nodes.  The text
written for a `double` holds no line feed. -/
theorem printedLines_one_line_per_node (showDouble : Float64 → String) (v : Value)
    (path : String) (hv : v.DistinctNames) (hshow : ∀ d, '\n' ∉ (showDouble d).data)
    (_hpath : path ≠ "") :
    (v.LineFeedFree ∧ '\n' ∉ path.data →
      (printedLines showDouble v path).length = v.nodes ∧
      ∀ line ∈ printedLines showDouble v path, path.data <+: line) ∧
    (¬ (v.LineFeedFree ∧ '\n' ∉ path.data) →
      v.nodes < (printedLines showDouble v path).length) := by
  constructor
  · rintro ⟨hf, hp⟩
    have hlines : printedLines showDouble v path
        = (printValueTree showDouble v path).map String.data :=
      linesOf_stdoutText_of_free _ (free_printValueTree showDouble hshow v path hv hf hp)
    rw [hlines, List.length_map]
    refine ⟨length_printValueTree showDouble v path hv, fun line hline => ?_⟩
    obtain ⟨entry, hentry, rfl⟩ := List.mem_map.1 hline
    obtain ⟨rest, hrest⟩ := prefix_printValueTree showDouble v path entry hentry
    rw [hrest, String.data_append]
    exact List.prefix_append _ _
  · intro h
    have hentry : ∃ entry ∈ printValueTree showDouble v path, '\n' ∈ entry.data := by
      by_cases hf : v.LineFeedFree
      · exact lineFeed_of_path showDouble v path (not_not.1 fun hp => h ⟨hf, hp⟩)
      · exact lineFeed_printValueTree showDouble v path hv hf
    have hlt := (length_linesOf_stdoutText (printValueTree showDouble v path)).2 hentry
    rw [length_printValueTree showDouble v path hv] at hlt
    exact hlt

theorem printedLines_one_line_per_node_witness :
    ((printedLines (fun _ => "")
        (.objectValue [("b", .arrayValue [.booleanValue true, .nullValue]),
          ("a", .stringValue "x")]) ".").length = 5 ∧
      ∀ line ∈ printedLines (fun _ => "")
        (.objectValue [("b", .arrayValue [.booleanValue true, .nullValue]),
          ("a", .stringValue "x")]) ".", ".".data <+: line) ∧
    (Value.stringValue "a\nb").nodes
      < (printedLines (fun _ => "") (.stringValue "a\nb") ".").length :=
  ⟨(printedLines_one_line_per_node (fun _ => "")
      (.objectValue [("b", .arrayValue [.booleanValue true, .nullValue]),
        ("a", .stringValue "x")])
      "." (by simp [Value.DistinctNames, DistinctNames.members, DistinctNames.elements])
      (fun _ => List.not_mem_nil _) (by decide)).1
      ⟨by simp [Value.LineFeedFree, LineFeedFree.members, LineFeedFree.elements], by decide⟩,
    (printedLines_one_line_per_node (fun _ => "") (.stringValue "a\nb") "."
      (by simp [Value.DistinctNames]) (fun _ => List.not_mem_nil _) (by decide)).2
      (fun h => absurd h.1 (by simp [Value.LineFeedFree]))⟩

/-! ## The order of the texts printed -/

theorem lex_common (pre a b : List Char) (x y : Char) (h : x < y) :
    pre ++ x :: a < pre ++ y :: b := by
  induction pre with
  | nil => exact List.Lex.rel h
  | cons c pre ih => exact List.Lex.cons ih

theorem lex_append_left (pre : List Char) {a b : List Char} (h : a < b) :
    pre ++ a < pre ++ b := by
  induction pre with
  | nil => exact h
  | cons c pre ih => exact List.Lex.cons ih

theorem lex_append_of_not_beginning {a b : List Char} (h : a < b) :
    ¬ a <+: b → ∀ s t : List Char, a ++ s < b ++ t := by
  induction h with
  | nil => exact fun hp => absurd (List.nil_prefix) hp
  | cons _ ih =>
    intro hp s t
    exact List.Lex.cons (ih (fun h' => hp (List.cons_prefix_cons.2 ⟨rfl, h'⟩)) s t)
  | rel hxy => exact fun _ s t => List.Lex.rel hxy

theorem lex_lt_append (a : List Char) (c : Char) (t : List Char) : a < a ++ c :: t := by
  induction a with
  | nil => exact List.Lex.nil
  | cons d a ih => exact List.Lex.cons ih

theorem lex_lt_of_beginning {a b : List Char} (h : a <+: b) (hne : a ≠ b) : a < b := by
  obtain ⟨t, rfl⟩ := h
  cases t with
  | nil => exact absurd (List.append_nil a).symm hne
  | cons c t => exact lex_lt_append a c t

theorem digit_lt (j k : Nat) (hjk : j < k) (hk : k < 10) :
    ∃ dj dk : Char, (toString j).data = [dj] ∧ (toString k).data = [dk] ∧ dj < dk := by
  interval_cases k <;> interval_cases j <;> exact ⟨_, _, rfl, rfl, by decide⟩

theorem mem_printElements (showDouble : Float64 → String) (path line : String) :
    ∀ (elements : List Value) (index : Nat),
      line ∈ printElements showDouble elements index path →
      ∃ (j : Nat) (rest : String), index ≤ j ∧ j < index + elements.length ∧
        line = path ++ ("[" ++ toString j ++ "]") ++ rest
  | [], _, h => by
    rw [printElements] at h
    exact absurd h (List.not_mem_nil _)
  | element :: rest, index, h => by
    rw [printElements, List.mem_append] at h
    rcases h with h | h
    · obtain ⟨r, hr⟩ := prefix_printValueTree showDouble element _ line h
      exact ⟨index, r, Nat.le_refl _, by simp, hr⟩
    · obtain ⟨j, r, hj1, hj2, hr⟩ := mem_printElements showDouble path line rest (index + 1) h
      exact ⟨j, r, by omega, by simp only [List.length_cons]; omega, hr⟩

theorem exists_printElements (showDouble : Float64 → String) (path : String) :
    ∀ (elements : List Value) (index j : Nat), j < elements.length →
      ∃ entry ∈ printElements showDouble elements index path, ∃ rest,
        entry = path ++ ("[" ++ toString (index + j) ++ "]") ++ rest
  | [], _, _, h => absurd h (Nat.not_lt_zero _)
  | element :: rest, index, 0, _ => by
    obtain ⟨entry, hentry⟩ := List.exists_mem_of_ne_nil _
      (printValueTree_ne_nil showDouble element (path ++ ("[" ++ toString index ++ "]")))
    obtain ⟨r, hr⟩ := prefix_printValueTree showDouble element _ entry hentry
    exact ⟨entry, by rw [printElements]; exact List.mem_append_left _ hentry, r, hr⟩
  | element :: rest, index, j + 1, h => by
    obtain ⟨entry, hentry, r, hr⟩ :=
      exists_printElements showDouble path rest (index + 1) j (Nat.lt_of_succ_lt_succ h)
    refine ⟨entry, by rw [printElements]; exact List.mem_append_right _ hentry, r, ?_⟩
    rw [hr, Nat.add_assoc, Nat.add_comm 1 j]

theorem marker_lt_element (path rest : String) (j : Nat) (c : String)
    (hc : c.data = ['=', '[', ']']) :
    (path ++ c).data < (path ++ ("[" ++ toString j ++ "]") ++ rest).data := by
  simp only [String.data_append, hc, List.append_assoc]
  exact lex_common _ _ _ _ _ (by decide)

theorem element_lt_element (path ra rb : String) (j k : Nat) (hjk : j < k) (hk : k < 10) :
    (path ++ ("[" ++ toString j ++ "]") ++ ra).data <
      (path ++ ("[" ++ toString k ++ "]") ++ rb).data := by
  obtain ⟨dj, dk, hj, hk', hlt⟩ := digit_lt j k hjk hk
  simp only [String.data_append, hj, hk', List.append_assoc]
  have h := lex_common (path.data ++ "[".data) ("]".data ++ ra.data) ("]".data ++ rb.data)
    dj dk hlt
  simpa only [List.append_assoc, List.singleton_append] using h

theorem ten_lt_one (path ra rb : String) :
    (path ++ ("[" ++ toString 10 ++ "]") ++ ra).data <
      (path ++ ("[" ++ toString 1 ++ "]") ++ rb).data := by
  have h10 : (toString 10).data = ['1', '0'] := rfl
  have h1 : (toString 1).data = ['1'] := rfl
  have hopen : "[".data = ['['] := rfl
  have hclose : "]".data = [']'] := rfl
  simp only [String.data_append, h10, h1, hopen, hclose, List.append_assoc]
  have h := lex_common (path.data ++ ['[', '1']) (']' :: ra.data) rb.data '0' ']' (by decide)
  simpa only [List.append_assoc, List.singleton_append, List.cons_append, List.nil_append]
    using h

theorem not_sorted_of_eleven (showDouble : Float64 → String) (path : String) :
    ∀ elements : List Value, 10 < elements.length →
      ¬ (printElements showDouble elements 0 path).Pairwise fun a b => a.data ≤ b.data
  | [], h, _ => absurd h (by decide)
  | [_], h, _ => absurd h (by simp)
  | a :: b :: rest, h, hs => by
    rw [printElements, printElements] at hs
    have hcross := (List.pairwise_append.1 (List.pairwise_append.1 hs).2.1).2.2
    obtain ⟨x, hx⟩ := List.exists_mem_of_ne_nil _
      (printValueTree_ne_nil showDouble b (path ++ ("[" ++ toString (0 + 1) ++ "]")))
    obtain ⟨rx, hrx⟩ := prefix_printValueTree showDouble b _ x hx
    obtain ⟨y, hy, ry, hry⟩ := exists_printElements showDouble path rest (0 + 1 + 1) 8
      (by simp only [List.length_cons] at h; omega)
    have hle := hcross x hx y hy
    rw [hrx, hry] at hle
    exact absurd (ten_lt_one path ry rx) (not_lt.2 hle)

theorem ordered_members_iff (showDouble : Float64 → String) (path : String) :
    ∀ members : List (String × Value),
      Ordered.members showDouble members path ↔
        ∀ m ∈ members, m.2.Ordered showDouble (path ++ m.1)
  | [] => by simp [Ordered.members]
  | (k, v) :: ms => by
    rw [Ordered.members, ordered_members_iff showDouble path ms]
    simp

theorem rel_of_pairwise_lt {α : Type} {R : α → α → Prop} {key : α → List Char} :
    ∀ {l : List α}, l.Pairwise (fun a b => key a < key b) → l.Pairwise R →
      ∀ a ∈ l, ∀ b ∈ l, key a < key b → R a b
  | [], _, _, a, ha, _, _, _ => absurd ha (List.not_mem_nil _)
  | c :: l, hk, hR, a, ha, b, hb, hlt => by
    rw [List.pairwise_cons] at hk hR
    rcases List.mem_cons.1 ha with hac | hal
    · rcases List.mem_cons.1 hb with hbc | hbl
      · rw [hac, hbc] at hlt
        exact absurd hlt (lt_irrefl _)
      · rw [hac]
        exact hR.1 b hbl
    · rcases List.mem_cons.1 hb with hbc | hbl
      · rw [hbc] at hlt
        exact absurd hlt (lt_asymm (hk.1 a hal))
      · exact rel_of_pairwise_lt hk.2 hR.2 a hal b hbl hlt

theorem suffix_of_marker (showDouble : Float64 → String) (members : List (String × Value))
    (path : String) (hne : members ≠ [])
    (h : ∀ m ∈ members,
      ∀ entry ∈ printValueTree showDouble m.2 (path ++ pathSuffix path ++ m.1),
        (path ++ "=\x7b\x7d").data ≤ entry.data) :
    pathSuffix path = "" := by
  rcases pathSuffix_eq path with hs | hs
  · exact hs
  · obtain ⟨m, hm⟩ := List.exists_mem_of_ne_nil _ hne
    obtain ⟨entry, hentry⟩ := List.exists_mem_of_ne_nil _
      (printValueTree_ne_nil showDouble m.2 (path ++ pathSuffix path ++ m.1))
    obtain ⟨rest, hrest⟩ := prefix_printValueTree showDouble m.2 _ entry hentry
    have hle := h m hm entry hentry
    rw [hrest, hs] at hle
    have hdot : ".".data = ['.'] := rfl
    have hmarker : "=\x7b\x7d".data = ['=', '\x7b', '\x7d'] := rfl
    simp only [String.data_append, hdot, hmarker, List.append_assoc, List.singleton_append]
      at hle
    exact absurd (lex_common path.data _ _ '.' '=' (by decide)) (not_lt.2 hle)

theorem cross_iff (showDouble : Float64 → String) (members sorted : List (String × Value))
    (path : String) (hperm : sorted.Perm members)
    (hsorted : sorted.Pairwise fun a b => a.1.data < b.1.data) :
    (sorted.Pairwise fun a b =>
      ∀ x ∈ printValueTree showDouble a.2 (path ++ a.1),
      ∀ y ∈ printValueTree showDouble b.2 (path ++ b.1), x.data ≤ y.data) ↔
    ∀ a ∈ members, ∀ b ∈ members, a.1.data <+: b.1.data → a.1 ≠ b.1 →
      ∀ x ∈ printValueTree showDouble a.2 (path ++ a.1),
      ∀ y ∈ printValueTree showDouble b.2 (path ++ b.1), x.data ≤ y.data := by
  constructor
  · intro hP a ha b hb hpre hne
    exact rel_of_pairwise_lt hsorted hP a (hperm.mem_iff.2 ha) b (hperm.mem_iff.2 hb)
      (lex_lt_of_beginning hpre (fun h => hne (String.ext h)))
  · intro h
    refine (List.Pairwise.and_mem.1 hsorted).imp ?_
    rintro a b ⟨ha, hb, hab⟩ x hx y hy
    by_cases hpre : a.1.data <+: b.1.data
    · refine h a (hperm.mem_iff.1 ha) b (hperm.mem_iff.1 hb) hpre ?_ x hx y hy
      intro hEq
      rw [hEq] at hab
      exact lt_irrefl _ hab
    · obtain ⟨rx, hrx⟩ := prefix_printValueTree showDouble _ _ x hx
      obtain ⟨ry, hry⟩ := prefix_printValueTree showDouble _ _ y hy
      rw [hrx, hry]
      simp only [String.data_append, List.append_assoc]
      exact le_of_lt (lex_append_left _ (lex_append_of_not_beginning hab hpre _ _))

mutual

theorem ordered_printValueTree (showDouble : Float64 → String) :
    ∀ (v : Value) (path : String), v.DistinctNames →
      ((printValueTree showDouble v path).Pairwise (fun a b => a.data ≤ b.data) ↔
        v.Ordered showDouble path)
  | .nullValue, _, _ => by
    rw [printValueTree]
    exact iff_of_true (List.pairwise_singleton _ _) (by simp [Value.Ordered])
  | .intValue _, _, _ => by
    rw [printValueTree]
    exact iff_of_true (List.pairwise_singleton _ _) (by simp [Value.Ordered])
  | .uintValue _, _, _ => by
    rw [printValueTree]
    exact iff_of_true (List.pairwise_singleton _ _) (by simp [Value.Ordered])
  | .realValue _, _, _ => by
    rw [printValueTree]
    exact iff_of_true (List.pairwise_singleton _ _) (by simp [Value.Ordered])
  | .stringValue _, _, _ => by
    rw [printValueTree]
    exact iff_of_true (List.pairwise_singleton _ _) (by simp [Value.Ordered])
  | .booleanValue _, _, _ => by
    rw [printValueTree]
    exact iff_of_true (List.pairwise_singleton _ _) (by simp [Value.Ordered])
  | .arrayValue elements, path, hv => by
    rw [Value.DistinctNames] at hv
    rw [printValueTree, Value.Ordered, List.pairwise_cons]
    constructor
    · rintro ⟨_, hs⟩
      have hlen : elements.length ≤ 10 :=
        not_lt.1 fun h => not_sorted_of_eleven showDouble path elements h hs
      exact ⟨hlen, (ordered_printElements showDouble elements 0 path hv (by omega)).1 hs⟩
    · rintro ⟨hlen, ho⟩
      refine ⟨fun b hb => ?_,
        (ordered_printElements showDouble elements 0 path hv (by omega)).2 ho⟩
      obtain ⟨j, rest, _, _, hb⟩ := mem_printElements showDouble path b elements 0 hb
      rw [hb]
      exact le_of_lt (marker_lt_element path rest j "=[]" rfl)
  | .objectValue members, path, hv => by
    rw [Value.DistinctNames] at hv
    obtain ⟨sorted, hperm, hsorted, hprint⟩ :=
      printValueTree_objectValue showDouble members path hv.1
    have hmem := ordered_printMembers showDouble members hv.2
    have hcross := cross_iff showDouble members sorted (path ++ pathSuffix path) hperm hsorted
    rw [hprint, Value.Ordered, List.pairwise_cons, List.pairwise_flatMap, ordered_members_iff]
    constructor
    · rintro ⟨hmarker, hs, hc⟩
      have hm : ∀ m ∈ members,
          ∀ entry ∈ printValueTree showDouble m.2 (path ++ pathSuffix path ++ m.1),
            (path ++ "=\x7b\x7d").data ≤ entry.data := fun m hm entry hentry =>
        hmarker entry (List.mem_flatMap.2 ⟨m, hperm.mem_iff.2 hm, hentry⟩)
      exact ⟨fun hne => suffix_of_marker showDouble members path hne hm,
        fun m hmm => (hmem m hmm _).1 (hs m (hperm.mem_iff.2 hmm)), hm, hcross.1 hc⟩
    · rintro ⟨_, ho, hm, hc⟩
      refine ⟨fun entry hentry => ?_,
        fun m hmm => (hmem m (hperm.mem_iff.1 hmm) _).2 (ho m (hperm.mem_iff.1 hmm)),
        hcross.2 hc⟩
      obtain ⟨m, hmm, hentry⟩ := List.mem_flatMap.1 hentry
      exact hm m (hperm.mem_iff.1 hmm) entry hentry

theorem ordered_printElements (showDouble : Float64 → String) :
    ∀ (elements : List Value) (index : Nat) (path : String),
      DistinctNames.elements elements → index + elements.length ≤ 10 →
      ((printElements showDouble elements index path).Pairwise (fun a b => a.data ≤ b.data) ↔
        Ordered.elements showDouble elements index path)
  | [], _, _, _, _ => by
    rw [printElements, Ordered.elements]
    exact iff_of_true List.Pairwise.nil trivial
  | element :: rest, index, path, hv, hlen => by
    rw [DistinctNames.elements] at hv
    simp only [List.length_cons] at hlen
    rw [printElements, Ordered.elements, List.pairwise_append,
      ordered_printValueTree showDouble element _ hv.1,
      ordered_printElements showDouble rest (index + 1) path hv.2 (by omega)]
    constructor
    · rintro ⟨h1, h2, _⟩
      exact ⟨h1, h2⟩
    · rintro ⟨h1, h2⟩
      refine ⟨h1, h2, fun a ha b hb => ?_⟩
      obtain ⟨ra, ha⟩ := prefix_printValueTree showDouble element _ a ha
      obtain ⟨j, rb, hj1, hj2, hb⟩ := mem_printElements showDouble path b rest (index + 1) hb
      rw [ha, hb]
      exact le_of_lt (element_lt_element path ra rb index j (by omega) (by omega))

theorem ordered_printMembers (showDouble : Float64 → String) :
    ∀ members : List (String × Value), DistinctNames.members members →
      ∀ m ∈ members, ∀ path : String,
        ((printValueTree showDouble m.2 path).Pairwise (fun a b => a.data ≤ b.data) ↔
          m.2.Ordered showDouble path)
  | [], _, m, hm, _ => by simp at hm
  | (k, v) :: rest, hv, m, hm, path => by
    rw [DistinctNames.members] at hv
    rcases List.mem_cons.1 hm with rfl | hm
    · exact ordered_printValueTree showDouble v path hv.1
    · exact ordered_printMembers showDouble rest hv.2 m hm path

end

/-! ## The order of the lines (C21) -/

end Twitter
